import Mathlib

/-!
# LitteDOM: a shallow embedding of the virtual-DOM engine (src/littedom.js)

This file embeds, as executable Lean definitions, the parts of LitteDOM that
the specification's claims talk about:

* the virtual-tree model and the child-normalization pipeline of the
  VirtualElement constructor (littedom.js lines 261-278);
* the class-component state machine: setState, _commitState, forceUpdate
  (lines 58-65, 101-122, 136-139) and the scheduler-driven _updateComponent
  (lines 1005-1076);
* the hooks store: useState, useEffect, useReducer, useRef, useMemo
  (lines 1600-1815), in particular the effect re-run policy and the
  outside-render-context error behavior;
* the batched-update scheduler: scheduleUpdate, _processBatchedUpdates,
  _flushEffects, scheduleEffect (lines 919-998);
* the synthetic-event dispatcher: _handleEvent and _executeHandlersForNode
  (lines 823-883);
* the reconciler: _reconcile, _reconcileChildren, _updateProps, _updateRefs
  (lines 1155-1533) together with mount / render / unmountComponentAtNode of
  the public API (lines 1084-1111, 2070-2125).

Modelling conventions.  DOM nodes are modelled as a tree carrying a numeric
identity (reference identity of the real node), the vnode stored on the node
(the _vnode expando) and the children in document order.  DOM mutations are
not performed on an ambient document; instead every reconciliation function
returns the list of mutation calls it would issue (an Op trace), which is the
observable the claims quantify over.  JavaScript reference identity of
handler functions, ref cells and dependency values is modelled by numeric
ids.  Error-handling branches of the source (try/catch fallback UI) are
outside the model except where a claim is about them; such spots are noted
at the definition concerned.
-/

namespace LitteDOM

/-! ## Property values and virtual nodes -/

/-- A JavaScript prop value as it occurs in the props mapping of a virtual
element: a string, a number, a boolean, an event-handler function (by
reference identity id) or a ref object / ref callback (by identity id). -/
inductive PVal where
  | str (s : String)
  | num (n : Int)
  | boolean (b : Bool)
  | handler (id : Nat)
  | refCell (id : Nat)
  deriving DecidableEq

/-- JavaScript truthiness of a prop value (used by _updateRefs, which guards
on the ref values being truthy). -/
def PVal.truthy : PVal → Bool
  | .str s => s ≠ ""
  | .num n => n ≠ 0
  | .boolean b => b
  | .handler _ => true
  | .refCell _ => true

/-- A virtual node: either a TextElement (type "#text", carrying its value)
or a VirtualElement for a host tag, with its key, its props and its already
normalized children.  Component-typed and fragment/portal vnodes are not
needed by the claims settled against this tree type and are omitted;
the functions below note where the source would branch on them. -/
inductive VNode where
  | text (value : String)
  | elem (tag : String) (key : Option String) (props : List (String × PVal))
      (children : List VNode)

mutual

/-- Decidable structural equality for virtual nodes (nested inductive, so the
instance is spelled out). -/
def VNode.decEq : (a b : VNode) → Decidable (a = b)
  | .text a, .text b =>
    if h : a = b then isTrue (by rw [h]) else isFalse (fun hc => by cases hc; exact h rfl)
  | .text _, .elem _ _ _ _ => isFalse (fun h => VNode.noConfusion h)
  | .elem _ _ _ _, .text _ => isFalse (fun h => VNode.noConfusion h)
  | .elem t1 k1 p1 c1, .elem t2 k2 p2 c2 =>
    if h1 : t1 = t2 then
      if h2 : k1 = k2 then
        if h3 : p1 = p2 then
          match VNode.decEqList c1 c2 with
          | isTrue h4 => isTrue (by rw [h1, h2, h3, h4])
          | isFalse h4 => isFalse (fun hc => by cases hc; exact h4 rfl)
        else isFalse (fun hc => by cases hc; exact h3 rfl)
      else isFalse (fun hc => by cases hc; exact h2 rfl)
    else isFalse (fun hc => by cases hc; exact h1 rfl)

def VNode.decEqList : (a b : List VNode) → Decidable (a = b)
  | [], [] => isTrue rfl
  | [], _ :: _ => isFalse (fun h => List.noConfusion h)
  | _ :: _, [] => isFalse (fun h => List.noConfusion h)
  | a :: as, b :: bs =>
    match VNode.decEq a b, VNode.decEqList as bs with
    | isTrue h1, isTrue h2 => isTrue (by rw [h1, h2])
    | isFalse h1, _ => isFalse (fun hc => by cases hc; exact h1 rfl)
    | isTrue _, isFalse h2 => isFalse (fun hc => by cases hc; exact h2 rfl)

end

instance : DecidableEq VNode := VNode.decEq

/-- The type discriminant used by reconciliation (VirtualElement.type;
TextElement passes "#text" to the super constructor). -/
def VNode.typeOf : VNode → String
  | .text _ => "#text"
  | .elem t _ _ _ => t

/-- The key of a vnode (props.key if present, else null; a TextElement is
constructed with default props, so its key is null). -/
def VNode.keyOf : VNode → Option String
  | .text _ => none
  | .elem _ k _ _ => k

def VNode.propsOf : VNode → List (String × PVal)
  | .text _ => []
  | .elem _ _ p _ => p

def VNode.childrenOf : VNode → List VNode
  | .text _ => []
  | .elem _ _ _ cs => cs

/-! ## Child normalization (VirtualElement constructor, lines 261-278)

The constructor receives the variadic children array and computes
children.flat().filter(child => child != null).map(normalizeChild),
where normalizeChild wraps non-object children in a TextElement.
A JavaScript value that can appear in a children array is modelled by JVal:
null, undefined, a string, a number, a boolean, a nested array, or an
already-constructed virtual node. -/

/-- A JavaScript value appearing in a children argument list. -/
inductive JVal where
  | jnull
  | jundef
  | jstr (s : String)
  | jnum (n : Int)
  | jbool (b : Bool)
  | jarr (xs : List JVal)
  | jnode (v : VNode)

mutual

/-- Decidable structural equality for JavaScript child values. -/
def JVal.decEq : (a b : JVal) → Decidable (a = b)
  | .jnull, .jnull => isTrue rfl
  | .jundef, .jundef => isTrue rfl
  | .jstr a, .jstr b =>
    if h : a = b then isTrue (by rw [h]) else isFalse (fun hc => by cases hc; exact h rfl)
  | .jnum a, .jnum b =>
    if h : a = b then isTrue (by rw [h]) else isFalse (fun hc => by cases hc; exact h rfl)
  | .jbool a, .jbool b =>
    if h : a = b then isTrue (by rw [h]) else isFalse (fun hc => by cases hc; exact h rfl)
  | .jnode a, .jnode b =>
    if h : a = b then isTrue (by rw [h]) else isFalse (fun hc => by cases hc; exact h rfl)
  | .jarr a, .jarr b =>
    match JVal.decEqList a b with
    | isTrue h => isTrue (by rw [h])
    | isFalse h => isFalse (fun hc => by cases hc; exact h rfl)
  | .jnull, .jundef | .jnull, .jstr _ | .jnull, .jnum _ | .jnull, .jbool _
  | .jnull, .jarr _ | .jnull, .jnode _
  | .jundef, .jnull | .jundef, .jstr _ | .jundef, .jnum _ | .jundef, .jbool _
  | .jundef, .jarr _ | .jundef, .jnode _
  | .jstr _, .jnull | .jstr _, .jundef | .jstr _, .jnum _ | .jstr _, .jbool _
  | .jstr _, .jarr _ | .jstr _, .jnode _
  | .jnum _, .jnull | .jnum _, .jundef | .jnum _, .jstr _ | .jnum _, .jbool _
  | .jnum _, .jarr _ | .jnum _, .jnode _
  | .jbool _, .jnull | .jbool _, .jundef | .jbool _, .jstr _ | .jbool _, .jnum _
  | .jbool _, .jarr _ | .jbool _, .jnode _
  | .jarr _, .jnull | .jarr _, .jundef | .jarr _, .jstr _ | .jarr _, .jnum _
  | .jarr _, .jbool _ | .jarr _, .jnode _
  | .jnode _, .jnull | .jnode _, .jundef | .jnode _, .jstr _ | .jnode _, .jnum _
  | .jnode _, .jbool _ | .jnode _, .jarr _ => isFalse (fun h => JVal.noConfusion h)

def JVal.decEqList : (a b : List JVal) → Decidable (a = b)
  | [], [] => isTrue rfl
  | [], _ :: _ => isFalse (fun h => List.noConfusion h)
  | _ :: _, [] => isFalse (fun h => List.noConfusion h)
  | a :: as, b :: bs =>
    match JVal.decEq a b, JVal.decEqList as bs with
    | isTrue h1, isTrue h2 => isTrue (by rw [h1, h2])
    | isFalse h1, _ => isFalse (fun hc => by cases hc; exact h1 rfl)
    | isTrue _, isFalse h2 => isFalse (fun hc => by cases hc; exact h2 rfl)

end

instance : DecidableEq JVal := JVal.decEq

/-- Array.prototype.flat() with no argument: flattens exactly one level of
nesting. -/
def flatOne (xs : List JVal) : List JVal :=
  xs.flatMap fun x =>
    match x with
    | .jarr ys => ys
    | y => [y]

/-- child != null (loose inequality): false exactly for null and undefined. -/
def JVal.nonNull : JVal → Bool
  | .jnull => false
  | .jundef => false
  | _ => true

/-- typeof child === 'object' for the values a children array can hold
(arrays and virtual-node objects; null is filtered out before this test). -/
def JVal.isObject : JVal → Bool
  | .jarr _ => true
  | .jnode _ => true
  | _ => false

/-- String(child) for the non-object children. -/
def JVal.jsString : JVal → String
  | .jstr s => s
  | .jnum n => toString n
  | .jbool b => if b then "true" else "false"
  | .jnull => "null"
  | .jundef => "undefined"
  | .jarr _ => ""
  | .jnode _ => ""

/-- normalizeChild (line 276-278): an 'object' child is kept as is
(this includes a still-nested array); anything else is wrapped in a
TextElement of its string form. -/
def normalizeChild (c : JVal) : JVal :=
  if c.isObject then c else .jnode (.text c.jsString)

/-- The children pipeline of the VirtualElement constructor (lines 265-267):
flatten one level, drop null/undefined, normalize the rest. -/
def buildChildren (children : List JVal) : List JVal :=
  ((flatOne children).filter JVal.nonNull).map normalizeChild

/-- Whether a normalized child is a proper virtual node. -/
def JVal.isNode : JVal → Bool
  | .jnode _ => true
  | _ => false

/-- Whether a value is an array. -/
def JVal.isArr : JVal → Bool
  | .jarr _ => true
  | _ => false

/-- An element of a children array nests at most one extra array level:
it is either not an array, or an array none of whose elements is an array. -/
def shallowNest : JVal → Bool
  | .jarr ys => ys.all fun y => !y.isArr
  | _ => true

/-! ## The effect hook (Hooks.useEffect, lines 1638-1693)

The deps argument at one call site across successive renders of one instance.
JavaScript distinguishes undefined (argument omitted), null, and an array;
dependency values are compared with !== (reference identity), modelled by
numeric ids. -/

/-- The deps argument of a useEffect call. -/
inductive JDeps where
  | undef
  | null
  | arr (ds : List Nat)
  deriving DecidableEq

/-- The re-run decision of useEffect on a non-first render (lines 1654-1667):
!deps is true for undefined and null; then !hook.deps likewise for the stored
deps; then the arrays are compared by length and positional identity. -/
def shouldRunB (stored fresh : JDeps) : Bool :=
  match fresh with
  | .undef => true
  | .null => true
  | .arr ds =>
    match stored with
    | .undef => true
    | .null => true
    | .arr old =>
      if ds.length ≠ old.length then true
      else (List.zip ds old).any fun p => p.1 ≠ p.2

/-- Observable events of one effect hook record: the effect body of render
number i ran; the cleanup returned by the body of render number i ran. -/
inductive EffEv where
  | runBody (renderIdx : Nat)
  | runCleanup (ofRender : Nat)
  deriving DecidableEq

/-- State of one effect hook record between renders: the stored deps, and
the cleanup currently held (tagged with the render whose body returned it). -/
structure EffHook where
  deps : JDeps
  cleanup : Option Nat
  deriving DecidableEq

/-- One render of the component at this effect call site, immediately
followed by the scheduler flush that executes the queued effectFunction
(lines 1670-1686): on a run, the stored cleanup (if any) is invoked first,
then the effect body; the body of render i returns a cleanup iff ret i.
first = none means this is the first-ever call (record creation, which
always runs).  Returns the new hook state and the emitted events. -/
def effRender (ret : Nat → Bool) (i : Nat) (st : Option EffHook) (d : JDeps) :
    EffHook × List EffEv :=
  match st with
  | none =>
    ({ deps := d, cleanup := if ret i then some i else none }, [.runBody i])
  | some h =>
    if shouldRunB h.deps d then
      ({ deps := d, cleanup := if ret i then some i else none },
        (match h.cleanup with
          | some k => [EffEv.runCleanup k]
          | none => []) ++ [EffEv.runBody i])
    else
      ({ h with deps := d }, [])

/-- The full trace of one effect call site over a sequence of renders, each
render passing the corresponding deps value. -/
def effTraceAux (ret : Nat → Bool) (i : Nat) (st : Option EffHook) :
    List JDeps → List EffEv
  | [] => []
  | d :: ds =>
    (effRender ret i st d).2 ++
      effTraceAux ret (i + 1) (some (effRender ret i st d).1) ds

/-- Events emitted by one effect call site across the given renders. -/
def effTrace (ret : Nat → Bool) (renders : List JDeps) : List EffEv :=
  effTraceAux ret 0 none renders

/-- How many times the effect body ran in a trace. -/
def bodyCount (evs : List EffEv) : Nat :=
  evs.countP fun e => match e with | .runBody _ => true | _ => false

/-- The render indices whose effect body ran, in order. -/
def runList (ret : Nat → Bool) (renders : List JDeps) : List Nat :=
  (effTrace ret renders).filterMap fun e =>
    match e with | .runBody i => some i | _ => none

/-- Trace built from the list of run indices alone, per the spec's wording:
each re-run first invokes the cleanup currently held (returned by the
previous run, if that run returned one), then the new body. -/
def buildTraceFrom (ret : Nat → Bool) (cl : Option Nat) : List Nat → List EffEv
  | [] => []
  | j :: js =>
    (match cl with
      | some k => [EffEv.runCleanup k]
      | none => []) ++ [EffEv.runBody j] ++
      buildTraceFrom ret (if ret j then some j else none) js

/-- The render indices at which the effect body runs, computed from the
deps sequence by the embedded rule: a first-ever call always runs, a later
call consults shouldRunB against the stored deps, and the stored deps are
overwritten by the passed deps on every render. -/
def runsFrom (i : Nat) (prev : Option JDeps) : List JDeps → List Nat
  | [] => []
  | d :: ds =>
    match prev with
    | none => i :: runsFrom (i + 1) (some d) ds
    | some p => (if shouldRunB p d then [i] else []) ++ runsFrom (i + 1) (some d) ds

/-- The re-run rule as the (amended) spec words it: undefined and null deps
always re-run; array deps re-run exactly when the passed identity list
differs from the one stored at the previous render (different length or
some positional element of different identity); array deps after a stored
null/undefined re-run. -/
def rerunSpec (stored fresh : JDeps) : Bool :=
  match fresh with
  | .undef => true
  | .null => true
  | .arr ds =>
    match stored with
    | .undef => true
    | .null => true
    | .arr old => decide (ds ≠ old)

/-- Whether render number j of the given deps sequence re-runs the body,
per the spec-side rule: the first render always does; render j consults
rerunSpec against the deps passed at render j-1. -/
def runsAtB (prev : Option JDeps) : List JDeps → Nat → Bool
  | [], _ => false
  | d :: _, 0 =>
    (match prev with
      | none => true
      | some p => rerunSpec p d)
  | d :: ds, j + 1 => runsAtB (some d) ds j

/-! ## Hook calls outside a render context (Hooks, lines 1600-1815)

Every hook first tests HooksContext.currentComponent.  useState throws a
HookException that propagates to the caller (no try/catch in its body).
useEffect, useReducer, useRef and useMemo wrap their whole body in
try/catch: the HookException is caught, reported to the error sink, and a
fallback value is returned to the caller.  Outcomes are modelled as
Except (raised error) / ok (returned value), paired with whether the error
sink received a report. -/

/-- The error kind raised on hook misuse. -/
inductive HookErr where
  | hookCtx
  deriving DecidableEq

/-- A minimal hook record store for a functional component instance
(identified by position, per the cursor rule). -/
inductive HookRec where
  | hstate (v : Int)
  | heffect
  | hreducer (v : Int)
  | href (cur : Int)
  | hmemo (v : Int)
  deriving DecidableEq

/-- A functional component instance as hook context. -/
structure FComp where
  hooks : List HookRec
  deriving DecidableEq

/-- Outcome of a hook call: the value produced (ok) or the error raised to
the caller (error), plus whether the error sink was notified. -/
structure HookCall (α : Type) where
  result : Except HookErr α
  reported : Bool

instance {α : Type} [DecidableEq α] : DecidableEq (Except HookErr α) := by
  intro a b
  cases a <;> cases b
  case error.error x y =>
    exact if h : x = y then isTrue (by rw [h]) else isFalse (fun hc => by cases hc; exact h rfl)
  case ok.ok x y =>
    exact if h : x = y then isTrue (by rw [h]) else isFalse (fun hc => by cases hc; exact h rfl)
  case error.ok x y => exact isFalse (fun hc => by cases hc)
  case ok.error x y => exact isFalse (fun hc => by cases hc)

instance {α : Type} [DecidableEq α] : DecidableEq (HookCall α) := by
  intro a b
  cases a with
  | mk ra pa =>
    cases b with
    | mk rb pb =>
      exact
        if h1 : ra = rb then
          if h2 : pa = pb then isTrue (by rw [h1, h2])
          else isFalse (fun hc => by cases hc; exact h2 rfl)
        else isFalse (fun hc => by cases hc; exact h1 rfl)

/-- useState (lines 1600-1630): no try/catch around the context test, so
with no current component the HookException propagates to the caller.
With a context, the record at the cursor is created on first call and its
state returned (the setter is modelled with the scheduler, below). -/
def useStateE (ctx : Option FComp) (idx : Nat) (initv : Int) : HookCall Int :=
  match ctx with
  | none => { result := .error .hookCtx, reported := false }
  | some c =>
    match c.hooks.get? idx with
    | some (.hstate v) => { result := .ok v, reported := false }
    | _ => { result := .ok initv, reported := false }

/-- useEffect (lines 1638-1693): the whole body is inside try/catch, so the
context error is caught and reported; the caller gets undefined back. -/
def useEffectE (ctx : Option FComp) : HookCall Unit :=
  match ctx with
  | none => { result := .ok (), reported := true }
  | some _ => { result := .ok (), reported := false }

/-- useReducer (lines 1703-1741): body inside try/catch; on the context
error the catch clause returns the pair [{}, () => {}], a value. -/
def useReducerE (ctx : Option FComp) (idx : Nat) (initv : Int) : HookCall Int :=
  match ctx with
  | none => { result := .ok 0, reported := true }
  | some c =>
    match c.hooks.get? idx with
    | some (.hreducer v) => { result := .ok v, reported := false }
    | _ => { result := .ok initv, reported := false }

/-- useRef (lines 1749-1761): body inside try/catch; on the context error
the catch clause returns a fresh object with current = initialValue. -/
def useRefE (ctx : Option FComp) (idx : Nat) (initv : Int) : HookCall Int :=
  match ctx with
  | none => { result := .ok initv, reported := true }
  | some c =>
    match c.hooks.get? idx with
    | some (.href v) => { result := .ok v, reported := false }
    | _ => { result := .ok initv, reported := false }

/-- useMemo (lines 1770-1815): body inside try/catch; on the context error
the catch clause returns null. -/
def useMemoE (ctx : Option FComp) (idx : Nat) (factoryVal : Int) :
    HookCall (Option Int) :=
  match ctx with
  | none => { result := .ok none, reported := true }
  | some c =>
    match c.hooks.get? idx with
    | some (.hmemo v) => { result := .ok (some v), reported := false }
    | _ => { result := .ok (some factoryVal), reported := false }

/-! ## The scheduler (VirtualDOMReconciliation, lines 896-998)

Component instances are identified by numeric ids.  The scheduler owns the
update queue (deduplicated, insertion order) and the effect queue (FIFO,
not deduplicated). -/

/-- The two scheduler-owned queues. -/
structure Sched where
  updateQueue : List Nat
  effectQueue : List Nat
  deriving DecidableEq

/-- scheduleUpdate (lines 919-925): push unless already queued.  (The
batch-arming timeout is the zero-delay flush; batching bookkeeping flags do
not affect queue contents.) -/
def schedUpdate (s : Sched) (c : Nat) : Sched :=
  if s.updateQueue.contains c then s
  else { s with updateQueue := s.updateQueue ++ [c] }

/-- scheduleEffect (lines 996-998): plain FIFO push. -/
def schedEffect (s : Sched) (e : Nat) : Sched :=
  { s with effectQueue := s.effectQueue ++ [e] }

/-- What one component's update pass schedules while it runs: further
updates (via setState in lifecycle code) and effects (from re-rendered
functional components). -/
structure UpdBeh where
  updates : List Nat
  effects : List Nat

/-- The update loop of _processBatchedUpdates (lines 937-948): iterate the
snapshot, each update scheduling into the live queues. -/
def runUpdatePhase (beh : Nat → UpdBeh) (snapshot : List Nat) (s : Sched) : Sched :=
  snapshot.foldl
    (fun st c =>
      let st1 := (beh c).updates.foldl schedUpdate st
      (beh c).effects.foldl schedEffect st1)
    s

/-- The effect loop of _flushEffects (lines 968-990): iterate the effect
snapshot; an executing effect may itself schedule updates and effects. -/
def runEffectPhase (ebeh : Nat → UpdBeh) (esnap : List Nat) (s : Sched) : Sched :=
  esnap.foldl
    (fun st e =>
      let st1 := (ebeh e).updates.foldl schedUpdate st
      (ebeh e).effects.foldl schedEffect st1)
    s

/-- One full flush, _processBatchedUpdates (lines 931-962): snapshot and
clear the update queue, process each snapshotted component, then
_flushEffects: snapshot and clear the effect queue and run each effect.
Returns the final scheduler state, the components actually processed in
this pass and the effects actually executed in this pass. -/
def processBatchedUpdates (beh ebeh : Nat → UpdBeh) (s : Sched) :
    Sched × List Nat × List Nat :=
  let snapshot := s.updateQueue
  let s1 : Sched := { s with updateQueue := [] }
  let s2 := runUpdatePhase beh snapshot s1
  let esnap := s2.effectQueue
  let s3 : Sched := { s2 with effectQueue := [] }
  let s4 := runEffectPhase ebeh esnap s3
  (s4, snapshot, esnap)

/-! ## Class components (Component, lines 34-173) and their update path

State objects are modelled extensionally as finite partial maps from keys to
integer values; the object spread of setState/_commitState is mergeStates. -/

/-- A state object. -/
def SMap : Type := String → Option Int

/-- The empty state object. -/
def emptySMap : SMap := fun _ => none

/-- Object spread: in a spread of s then p, keys of p win. -/
def mergeStates (s p : SMap) : SMap :=
  fun k => match p k with
    | some v => some v
    | none => s k

/-- A class-component instance.  Callbacks queued by setState/forceUpdate
are identified by numeric ids.  overridesSCU models
shouldComponentUpdate !== Component.prototype.shouldComponentUpdate, and
gate is the overriding method as a function of the next state (the props
argument is fixed for the life of this model).  renderFn is the component's
render method as a function of its state. -/
structure Comp where
  state : SMap
  pendingState : Option SMap
  pendingCallbacks : List Nat
  isMounted : Bool
  renderInProgress : Bool
  overridesSCU : Bool
  gate : SMap → Bool
  renderFn : SMap → VNode

/-- Result of Component._commitState: the updated instance, the boolean the
method returns, the callbacks it executed (in execution order) and whether
componentDidUpdate fired. -/
structure CommitRes where
  comp : Comp
  applied : Bool
  ranCallbacks : List Nat
  firedDidUpdate : Bool

/-- Component._commitState (lines 101-122).  With no pending state: no-op,
returns false.  Otherwise nextState is the spread of state and pendingState;
if the instance is mounted and overrides shouldComponentUpdate and the gate
rejects, pendingState is discarded, the queued callbacks are shifted off in
FIFO order and run, and false is returned, leaving state untouched.
Otherwise state becomes nextState, pendingState is cleared,
componentDidUpdate fires when mounted, and the callbacks run FIFO. -/
def commitState (c : Comp) : CommitRes :=
  match c.pendingState with
  | none => { comp := c, applied := false, ranCallbacks := [], firedDidUpdate := false }
  | some pend =>
    let nextState := mergeStates c.state pend
    if c.isMounted ∧ c.overridesSCU ∧ c.gate nextState = false then
      { comp := { c with pendingState := none, pendingCallbacks := [] }
        applied := false
        ranCallbacks := c.pendingCallbacks
        firedDidUpdate := false }
    else
      { comp := { c with state := nextState, pendingState := none, pendingCallbacks := [] }
        applied := true
        ranCallbacks := c.pendingCallbacks
        firedDidUpdate := c.isMounted }

/-- Component.setState (lines 58-65): queue the callback if given, spread
the partial state onto pendingState (spread of null is the empty object),
and request a scheduler update when mounted and not mid-render.  Returns
the updated instance and whether scheduleUpdate was called. -/
def setStateC (c : Comp) (part : SMap) (cb : Option Nat) : Comp × Bool :=
  ({ c with
      pendingCallbacks := c.pendingCallbacks ++ cb.toList
      pendingState := some (mergeStates ((c.pendingState).getD emptySMap) part) },
    c.isMounted && !c.renderInProgress)

/-- A one-component world: the instance together with the scheduler's
update queue (the instance has id 0). -/
structure CWorld where
  comp : Comp
  queue : List Nat

/-- setState on the world: update the instance, then scheduleUpdate when
the instance requested it. -/
def setStateW (w : CWorld) (part : SMap) : CWorld :=
  let (c', sched) := setStateC w.comp part none
  { comp := c'
    queue := if sched then (schedUpdate ⟨w.queue, []⟩ 0).updateQueue else w.queue }

/-! ## The event dispatcher (EventManager, lines 823-883)

A node on the ancestor path, for one event type: its id and the capture /
bubble handlers registered on it (by handler id).  A handler's behavior is
whether it calls stopPropagation / preventDefault on the synthetic event. -/

/-- Handlers registered on one node for the event being dispatched. -/
structure ENode where
  capture : Option Nat
  bubble : Option Nat

/-- What a handler does to the synthetic event when invoked. -/
structure HBeh where
  stops : Bool
  prevents : Bool

/-- Synthetic-event flag state during dispatch. -/
structure EvFlags where
  stopped : Bool
  prevented : Bool

/-- _executeHandlersForNode (lines 861-883) for one phase: invoke the
handler registered under the phase's name, if any, recording the
invocation and folding its effect into the synthetic event's flags. -/
def execNode (beh : Nat → HBeh) (h : Option Nat) (st : EvFlags) :
    List Nat × EvFlags :=
  match h with
  | none => ([], st)
  | some hid =>
    ([hid],
      { stopped := st.stopped || (beh hid).stops
        prevented := st.prevented || (beh hid).prevents })

/-- One phase walk of _handleEvent: execute each node's handler in path
order, breaking after any node once propagation is stopped. -/
def phaseWalk (beh : Nat → HBeh) : List (Option Nat) → EvFlags → List Nat × EvFlags
  | [], st => ([], st)
  | h :: rest, st =>
    if (execNode beh h st).2.stopped then execNode beh h st
    else
      ((execNode beh h st).1 ++ (phaseWalk beh rest (execNode beh h st).2).1,
        (phaseWalk beh rest (execNode beh h st).2).2)

/-- _handleEvent (lines 823-851): build the root-to-target path, run the
capture walk, then, only if propagation was not stopped, the bubble walk in
reverse order; finally preventDefault is invoked on the native event iff
the synthetic event's default was prevented.  path is given root-first.
Returns the handler invocations in order, the final synthetic flags and
whether the native preventDefault was invoked. -/
def dispatchEvent (beh : Nat → HBeh) (path : List ENode) :
    List Nat × EvFlags × Bool :=
  let cap := phaseWalk beh (path.map ENode.capture) ⟨false, false⟩
  let both :=
    if cap.2.stopped then cap
    else
      (cap.1 ++ (phaseWalk beh (path.reverse.map ENode.bubble) cap.2).1,
        (phaseWalk beh (path.reverse.map ENode.bubble) cap.2).2)
  (both.1, both.2, both.2.prevented)

/-- Reference walk used to state the dispatch order property: invoke the
handlers of the list in order, stopping (inclusively) at the first handler
that calls stopPropagation; also reports whether a stop happened and the
accumulated preventDefault flag. -/
def takeThroughStop (beh : Nat → HBeh) : List Nat → List Nat × Bool × Bool
  | [] => ([], false, false)
  | h :: rest =>
    if (beh h).stops then ([h], true, (beh h).prevents)
    else
      (h :: (takeThroughStop beh rest).1, (takeThroughStop beh rest).2.1,
        (beh h).prevents || (takeThroughStop beh rest).2.2)

/-! ## unmountComponentAtNode (LitteDOMAPI, lines 2109-2125)

The container holds the root node of the last render (container._rootDOMNode)
and its displayed content.  The recursive unmount cascade
(_unmountComponentAtNode, lines 1540-1560) swallows its own errors per node,
so the catch clause of the public method can only be reached by a failure of
the host container operations (modelled by hostOk). -/

/-- Observable effects of an unmount. -/
inductive UOp where
  | cascade (rootId : Nat)
  | clearContent
  deriving DecidableEq

/-- A render container. -/
structure Container where
  root : Option Nat
  content : List Nat
  deriving DecidableEq

/-- LitteDOM.unmountComponentAtNode (lines 2109-2125): when a root node is
stored, run the cascade, clear the container's innerHTML, null the stored
root and return true; with no stored root return false; when the host clear
operation throws, the catch clause returns false (the cascade has already
run, the root reference is left in place). -/
def unmountAtNode (c : Container) (hostOk : Bool) : Bool × Container × List UOp :=
  match c.root with
  | none => (false, c, [])
  | some r =>
    if hostOk then
      (true, { root := none, content := [] }, [.cascade r, .clearContent])
    else
      (false, c, [.cascade r])

/-! ## The reconciler (VirtualDOMReconciliation, lines 1155-1533)

A live render-target node carries a numeric identity (the reference identity
of the real node), the vnode stored on it (the _vnode expando; a fresh text
node created by TextElement.render has no expando, but it is only looked at
through the oldChildren fallback, which the consistency invariant below makes
agree) and, for elements, the children in document order.  Mutations are not
applied to an ambient document: every function returns the trace of mutation
calls it would issue. -/

/-- A live render-target node. -/
inductive DNode where
  | dtext (id : Nat) (value : String) (stored : VNode)
  | delem (id : Nat) (tag : String) (stored : VNode) (children : List DNode)

mutual

/-- Decidable structural equality for live nodes. -/
def DNode.decEq : (a b : DNode) → Decidable (a = b)
  | .dtext i1 v1 s1, .dtext i2 v2 s2 =>
    if h1 : i1 = i2 then
      if h2 : v1 = v2 then
        if h3 : s1 = s2 then isTrue (by rw [h1, h2, h3])
        else isFalse (fun hc => by cases hc; exact h3 rfl)
      else isFalse (fun hc => by cases hc; exact h2 rfl)
    else isFalse (fun hc => by cases hc; exact h1 rfl)
  | .dtext _ _ _, .delem _ _ _ _ => isFalse (fun h => DNode.noConfusion h)
  | .delem _ _ _ _, .dtext _ _ _ => isFalse (fun h => DNode.noConfusion h)
  | .delem i1 t1 s1 c1, .delem i2 t2 s2 c2 =>
    if h1 : i1 = i2 then
      if h2 : t1 = t2 then
        if h3 : s1 = s2 then
          match DNode.decEqList c1 c2 with
          | isTrue h4 => isTrue (by rw [h1, h2, h3, h4])
          | isFalse h4 => isFalse (fun hc => by cases hc; exact h4 rfl)
        else isFalse (fun hc => by cases hc; exact h3 rfl)
      else isFalse (fun hc => by cases hc; exact h2 rfl)
    else isFalse (fun hc => by cases hc; exact h1 rfl)

def DNode.decEqList : (a b : List DNode) → Decidable (a = b)
  | [], [] => isTrue rfl
  | [], _ :: _ => isFalse (fun h => List.noConfusion h)
  | _ :: _, [] => isFalse (fun h => List.noConfusion h)
  | a :: as, b :: bs =>
    match DNode.decEq a b, DNode.decEqList as bs with
    | isTrue h1, isTrue h2 => isTrue (by rw [h1, h2])
    | isFalse h1, _ => isFalse (fun hc => by cases hc; exact h1 rfl)
    | isTrue _, isFalse h2 => isFalse (fun hc => by cases hc; exact h2 rfl)

end

instance : DecidableEq DNode := DNode.decEq

/-- The node's identity. -/
def DNode.nid : DNode → Nat
  | .dtext i _ _ => i
  | .delem i _ _ _ => i

/-- The vnode stored on the node. -/
def DNode.stored : DNode → VNode
  | .dtext _ _ v => v
  | .delem _ _ v _ => v

/-- A mutation call on the render target. -/
inductive Op where
  | setText (oldV newV : String)
  | registerHandler (name : String) (id : Option Nat)
  | clearStyleAll
  | setAttrP (name : String) (value : PVal)
  | setBoolAttr (name : String) (present : Bool)
  | removeAttr (name : String)
  | refDetach (r : PVal)
  | refAttach (r : PVal)
  | createNode (nodeId : Nat)
  | unmountCascade (nodeId : Nat)
  | replaceChildOp (newId oldId : Nat)
  | appendChild (nodeId : Nat)
  | insertBeforeOp (newId beforeId : Nat)
  | removeChildOp (nodeId : Nat)
  | clearContainer
  deriving DecidableEq

/-- The attribute-value escaping of _updateProps (lines 1450-1460) and
applyProps: the characters of less-than, greater-than, double quote and
ampersand are replaced by their entity forms. -/
def escapeChar (c : Char) : String :=
  if c = '<' then "&lt;"
  else if c = '>' then "&gt;"
  else if c = '"' then "&quot;"
  else if c = '&' then "&amp;"
  else String.singleton c

def escapeAttr (s : String) : String :=
  String.join (s.toList.map escapeChar)

/-- Escaping applies to string values only. -/
def escapeVal : PVal → PVal
  | .str s => .str (escapeAttr s)
  | v => v

/-- Property lookup in a props object (objects cannot hold a key twice; the
assoc-list model takes the first binding, and well-formedness of vnodes
below demands distinct keys). -/
def lookupP (ps : List (String × PVal)) (k : String) : Option PVal :=
  (ps.find? fun kv => kv.1 == k).map fun kv => kv.2

/-- key.startsWith('on'). -/
def isEventKey (k : String) : Bool := k.startsWith "on"

/-- The mutation issued for a prop present in oldProps but absent from
newProps (lines 1425-1437): handlers are deregistered, style is reset,
className clears the class attribute, anything else is removed as an
attribute. -/
def removalOp (k : String) : Op :=
  if isEventKey k then .registerHandler k none
  else if k = "style" then .clearStyleAll
  else if k = "className" then .removeAttr "class"
  else .removeAttr k

/-- The mutation issued for a changed prop (lines 1438-1464): an on-prefixed
key with a function value re-registers the handler; className writes the
class attribute; a boolean toggles attribute presence; any other key except
ref is written as an escaped attribute; ref is skipped here (handled by
_updateRefs).  Style objects are not modelled as prop values, so the
per-sub-property style diff branch has no case here. -/
def updateOp (k : String) (v : PVal) : Option Op :=
  if isEventKey k && (match v with | .handler _ => true | _ => false) then
    some (.registerHandler k (match v with | .handler i => some i | _ => none))
  else if k = "className" then some (.setAttrP "class" v)
  else if (match v with | .boolean _ => true | _ => false : Bool) then
    some (.setBoolAttr k (match v with | .boolean b => b | _ => false))
  else if k ≠ "ref" then some (.setAttrP k (escapeVal v))
  else none

/-- _updateRefs (lines 1512-1533): detach the old ref and attach the new
one, each only when the ref identity changed and the value is truthy (the
inner oldRef.current truthiness test is collapsed into the detach call). -/
def updateRefOps (oldRef newRef : Option PVal) : List Op :=
  (match oldRef with
    | some o => if o.truthy ∧ oldRef ≠ newRef then [Op.refDetach o] else []
    | none => []) ++
  (match newRef with
    | some n => if n.truthy ∧ oldRef ≠ newRef then [Op.refAttach n] else []
    | none => [])

/-- _updateProps (lines 1423-1471): first the removal loop over oldProps,
then the update loop over newProps (children and key skipped; a prop is
rewritten when its old and new values differ by identity), then
_updateRefs. -/
def updatePropOps (oldP newP : List (String × PVal)) : List Op :=
  let removals := oldP.filterMap fun kv =>
    if lookupP newP kv.1 = none ∧ kv.1 ≠ "children" then some (removalOp kv.1) else none
  let updates := newP.filterMap fun kv =>
    if kv.1 ≠ "children" ∧ kv.1 ≠ "key" ∧ lookupP oldP kv.1 ≠ some kv.2 then
      updateOp kv.1 kv.2
    else none
  removals ++ updates ++ updateRefOps (lookupP oldP "ref") (lookupP newP "ref")

mutual

/-- VirtualElement.render for host elements and text (renderDOMElement /
TextElement.render): build a fresh live subtree, threading the supply of
fresh node identities.  The prop application and event registration of
applyProps happen on the detached fresh node and are not render-target
mutations, so they do not appear in an Op trace. -/
def renderVNode : VNode → Nat → DNode × Nat
  | .text s, f => (.dtext f s (.text s), f + 1)
  | .elem t k p cs, f =>
    let (ds, f') := renderList cs (f + 1)
    (.delem f t (.elem t k p cs) ds, f')

def renderList : List VNode → Nat → List DNode × Nat
  | [], f => ([], f)
  | c :: cs, f =>
    let (d, f') := renderVNode c f
    let (ds, f'') := renderList cs f'
    (d :: ds, f'')

end

/-! ### Keyed child-list reconciliation (lines 1343-1414) -/

/-- The lookup key of a child at position i: the explicit key if non-null,
else the positional pseudo-key (the source uses the string __index_i; the
sum type keeps explicit and positional keys disjoint). -/
def entryKeyOf (v : VNode) (i : Nat) : String ⊕ Nat :=
  match v.keyOf with
  | some k => Sum.inl k
  | none => Sum.inr i

/-- An entry of the existingChildren lookup. -/
structure CEntry where
  ekey : String ⊕ Nat
  dn : DNode
  vnode : VNode
  index : Nat
  deriving DecidableEq

/-- Object-key assignment: overwrite the value in place when the key is
present, append otherwise (so built lookups never hold a key twice). -/
def insertEntry (es : List CEntry) (e : CEntry) : List CEntry :=
  if es.any (fun x => decide (x.ekey = e.ekey)) then
    es.map fun x => if x.ekey = e.ekey then e else x
  else es ++ [e]

/-- Building the existingChildren lookup (lines 1345-1355): walk the dom
children with their index, the old vnode being oldChildren[i] with the
node's stored vnode as fallback. -/
def buildEntriesAux : List CEntry → Nat → List DNode → List VNode → List CEntry
  | acc, _, [], _ => acc
  | acc, i, d :: ds, oldCs =>
    let oldV := (oldCs.get? i).getD d.stored
    buildEntriesAux (insertEntry acc ⟨entryKeyOf oldV i, d, oldV, i⟩) (i + 1) ds oldCs

def buildEntries (kids : List DNode) (oldCs : List VNode) : List CEntry :=
  buildEntriesAux [] 0 kids oldCs

def findEntry (es : List CEntry) (k : String ⊕ Nat) : Option CEntry :=
  es.find? fun e => decide (e.ekey = k)

def eraseEntry (es : List CEntry) (k : String ⊕ Nat) : List CEntry :=
  es.filter fun e => decide (e.ekey ≠ k)

/-- The per-new-child decision taken by the reconciliation pass. -/
inductive CDec where
  | patched (origIndex : Nat) (moved : Bool)
  | created (nodeId : Nat)
  deriving DecidableEq

/-- State threaded through the child reconciliation pass: the lastIndex
watermark, the remaining existingChildren entries, the current node value
per identity, the parent's child order, the mutation trace, the decisions
and the fresh-identity supply. -/
structure RCState where
  lastIndex : Nat
  entries : List CEntry
  nodes : List (Nat × DNode)
  order : List Nat
  ops : List Op
  decs : List CDec
  fresh : Nat

def lookupNode (ns : List (Nat × DNode)) (id : Nat) : Option DNode :=
  (ns.find? fun p => p.1 == id).map fun p => p.2

/-- The trailing removal pass (lines 1404-1408): every entry still in the
lookup is unmounted and removed from the parent. -/
def removeLeftover (st : RCState) : RCState :=
  let ids := st.entries.map fun e => e.dn.nid
  { st with
    entries := []
    order := st.order.filter fun x => decide (x ∉ ids)
    nodes := st.nodes.filter fun p => decide (p.1 ∉ ids)
    ops := st.ops ++ st.entries.flatMap fun e =>
      [Op.unmountCascade e.dn.nid, Op.removeChildOp e.dn.nid] }

/-- The live children of the parent after the pass, in document order. -/
def RCState.finalKids (st : RCState) : List DNode :=
  st.order.filterMap fun id => lookupNode st.nodes id

def setNode (ns : List (Nat × DNode)) (oldId : Nat) (d : DNode) : List (Nat × DNode) :=
  (ns.filter fun p => !(p.1 == oldId)) ++ [(d.nid, d)]

def orderReplace (order : List Nat) (oldId newId : Nat) : List Nat :=
  order.map fun x => if x = oldId then newId else x

/-- appendChild on a node already in the tree: move it to the end. -/
def orderMoveEnd (order : List Nat) (id : Nat) : List Nat :=
  (order.filter fun x => !(x == id)) ++ [id]

/-- insertBefore relative to a reference node wherever it currently sits
(the reference is a snapshot entry and may have been reordered). -/
def orderInsertBefore (order : List Nat) (newId refId : Nat) : List Nat :=
  if order.contains refId then
    order.flatMap fun x => if x = refId then [newId, refId] else [x]
  else order ++ [newId]

/-- The not-found arm of the pass (lines 1374-1382): render the new child
and either append it (index beyond the snapshot length) or insert it before
the snapshot's i-th dom child. -/
def createStep (origIds : List Nat) (origLen i : Nat) (st : RCState) (c : VNode) :
    RCState :=
  let nd := (renderVNode c st.fresh).1
  let orderIns :=
    if origLen ≤ i then (st.order ++ [nd.nid], [Op.appendChild nd.nid])
    else
      match origIds.get? i with
      | some refId =>
        (orderInsertBefore st.order nd.nid refId, [Op.insertBeforeOp nd.nid refId])
      | none => (st.order ++ [nd.nid], [Op.appendChild nd.nid])
  { lastIndex := st.lastIndex
    entries := st.entries
    nodes := st.nodes ++ [(nd.nid, nd)]
    order := orderIns.1
    ops := st.ops ++ [Op.createNode nd.nid] ++ orderIns.2
    decs := st.decs ++ [CDec.created nd.nid]
    fresh := (renderVNode c st.fresh).2 }

mutual

/-- _reconcile (lines 1155-1213) for a present dom node and a present new
vnode.  A new TextElement patches a text node in place (updating the stored
vnode), or replaces a non-text node; a host element whose type or key
differs from the stored vnode's is replaced (render new, unmount cascade,
replaceChild); a matching host element is patched: prop diff, then keyed
child reconciliation, then the stored vnode is updated.  The
component-typed branch (_reconcileComponent) and the error-fallback branch
are outside this model, as are the dom-absent / vnode-absent arms (handled
at the call sites in the source). -/
def reconcile (d : DNode) (v : VNode) (fresh : Nat) : DNode × List Op × Nat :=
  match v with
  | .text s =>
    match d with
    | .dtext id old _ =>
      (.dtext id s (.text s), if old ≠ s then [Op.setText old s] else [], fresh)
    | .delem id _ _ _ =>
      let nd : DNode := .dtext fresh s (.text s)
      (nd, [Op.createNode fresh, Op.unmountCascade id, Op.replaceChildOp fresh id],
        fresh + 1)
  | .elem tag key props cs =>
    if d.stored.typeOf ≠ tag ∨ d.stored.keyOf ≠ key then
      let (nd, f') := renderVNode (.elem tag key props cs) fresh
      (nd, [Op.createNode nd.nid, Op.unmountCascade d.nid,
        Op.replaceChildOp nd.nid d.nid], f')
    else
      match d with
      | .dtext id old st =>
        -- degenerate: a text node whose stored type string equals the tag;
        -- prop diff runs, there are no dom children to walk
        (.dtext id old (.elem tag key props cs),
          updatePropOps st.propsOf props, fresh)
      | .delem id dtag st kids =>
        let pops := updatePropOps st.propsOf props
        let stFinal :=
          removeLeftover
            (reconChildLoop (kids.map DNode.nid) kids.length 0
              { lastIndex := 0
                entries := buildEntries kids st.childrenOf
                nodes := kids.map fun dk => (dk.nid, dk)
                order := kids.map DNode.nid
                ops := []
                decs := []
                fresh := fresh }
              cs)
        (.delem id dtag (.elem tag key props cs) stFinal.finalKids,
          pops ++ stFinal.ops, stFinal.fresh)

/-- The walk over the new children (lines 1356-1403): match by
key-or-index, patch in place with the move-on-regression rule, or create
and insert; matched entries are deleted from the lookup. -/
def reconChildLoop (origIds : List Nat) (origLen i : Nat) (st : RCState) :
    List VNode → RCState
  | [] => st
  | c :: cs =>
    let k := entryKeyOf c i
    let st' :=
      match findEntry st.entries k with
      | some e =>
        if e.vnode.typeOf = c.typeOf then
          let d' := (reconcile e.dn c st.fresh).1
          let order' := orderReplace st.order e.dn.nid d'.nid
          let moved := e.index < st.lastIndex
          { lastIndex := if moved then st.lastIndex else e.index
            entries := eraseEntry st.entries k
            nodes := setNode st.nodes e.dn.nid d'
            order := if moved then orderMoveEnd order' d'.nid else order'
            ops := st.ops ++ (reconcile e.dn c st.fresh).2.1 ++
              (if moved then [Op.appendChild d'.nid] else [])
            decs := st.decs ++ [CDec.patched e.index (decide (e.index < st.lastIndex))]
            fresh := (reconcile e.dn c st.fresh).2.2 }
        else createStep origIds origLen i st c
      | none => createStep origIds origLen i st c
    reconChildLoop origIds origLen (i + 1) st' cs

end

/-- _reconcileChildren (lines 1343-1414) as a standalone pass over one
parent: build the lookup, walk the new children, remove the unmatched. -/
def childPass (kids : List DNode) (oldCs newCs : List VNode) (fresh : Nat) :
    RCState :=
  reconChildLoop (kids.map DNode.nid) kids.length 0
    { lastIndex := 0
      entries := buildEntries kids oldCs
      nodes := kids.map fun dk => (dk.nid, dk)
      order := kids.map DNode.nid
      ops := []
      decs := []
      fresh := fresh }
    newCs

def reconcileChildren (kids : List DNode) (oldCs newCs : List VNode) (fresh : Nat) :
    RCState :=
  removeLeftover (childPass kids oldCs newCs fresh)

/-- Boolean duplicate-freedom check. -/
def nodupB {α : Type} [DecidableEq α] : List α → Bool
  | [] => true
  | x :: xs => !(xs.contains x) && nodupB xs

mutual

/-- Well-formedness of a virtual tree, reflecting what JavaScript objects
guarantee anyway: a props object holds each key once, and sibling explicit
keys are pairwise distinct (duplicate sibling keys silently overwrite one
another in the existingChildren lookup and are excluded, as in React). -/
def wfB : VNode → Bool
  | .text _ => true
  | .elem _ _ props cs =>
    nodupB (props.map Prod.fst) && nodupB (cs.filterMap VNode.keyOf) && wfList cs

def wfList : List VNode → Bool
  | [] => true
  | c :: cs => wfB c && wfList cs

end

mutual

/-- Consistency of a live node with its stored vnode: the node displays
exactly what the vnode describes, recursively — the state every render and
every completed reconciliation establishes. -/
def consistB : DNode → Bool
  | .dtext _ s v => decide (v = VNode.text s)
  | .delem _ tag v kids =>
    match v with
    | .text _ => false
    | .elem t _ _ cs =>
      decide (tag = t) && decide (kids.map DNode.stored = cs) && consistList kids

def consistList : List DNode → Bool
  | [] => true
  | d :: ds => consistB d && consistList ds

end

/-- The watermark rule as the spec words it: walking the decisions, a
matched child is moved exactly when its original index is strictly below
the highest matched original index seen so far (0 before any match). -/
def movedSpecOk : Nat → List CDec → Prop
  | _, [] => True
  | w, CDec.created _ :: ds => movedSpecOk w ds
  | w, CDec.patched idx mv :: ds =>
    (mv = decide (idx < w)) ∧ movedSpecOk (max w idx) ds

/-- The highest matched original index after a run of decisions, starting
from the given watermark. -/
def wmAfter : Nat → List CDec → Nat
  | w, [] => w
  | w, CDec.created _ :: ds => wmAfter w ds
  | w, CDec.patched idx _ :: ds => wmAfter (max w idx) ds

/-- The canonical existingChildren lookup for a dom child list that is
being reconciled against its own stored vnodes: one entry per child, in
order, indexed from i. -/
def selfEntries : Nat → List DNode → List CEntry
  | _, [] => []
  | i, d :: ds => ⟨entryKeyOf d.stored i, d, d.stored, i⟩ :: selfEntries (i + 1) ds

mutual

/-- Reference-identity sanity of a live subtree: sibling nodes are distinct
objects (distinct identities), recursively — what an actual document
guarantees. -/
def idsOkB : DNode → Bool
  | .dtext _ _ _ => true
  | .delem _ _ _ kids => nodupB (kids.map DNode.nid) && idsOkList kids

def idsOkList : List DNode → Bool
  | [] => true
  | d :: ds => idsOkB d && idsOkList ds

end

/-! ## The component update path and the public render API -/

/-- Result of _updateComponent on a class component. -/
structure UpdateRes where
  comp : Comp
  dom : DNode
  ops : List Op
  ranCallbacks : List Nat
  commitCalls : Nat
  fresh : Nat

/-- _updateComponent (lines 1005-1076) for a class component on the happy
path: bail out when unmounted; otherwise set _renderInProgress, run
_commitState (its boolean result is not consulted), re-render from the
committed state and reconcile the produced vnode against the component's
current dom node in place, clearing _renderInProgress at the end.  The
error-boundary catch arms and the _hasError reset are outside the model;
the null-render and detached-node early returns do not arise for the total
renderFn against an attached node modelled here. -/
def updateComponent (c : Comp) (dn : DNode) (fresh : Nat) : UpdateRes :=
  if c.isMounted = false then
    { comp := c, dom := dn, ops := [], ranCallbacks := [], commitCalls := 0
      fresh := fresh }
  else
    let c0 := { c with renderInProgress := true }
    let r := commitState c0
    let v := r.comp.renderFn r.comp.state
    { comp := { r.comp with renderInProgress := false }
      dom := (reconcile dn v fresh).1
      ops := (reconcile dn v fresh).2.1
      ranCallbacks := r.ranCallbacks
      commitCalls := 1
      fresh := (reconcile dn v fresh).2.2 }

/-- Result of one scheduler flush over a one-component world. -/
structure FlushRes where
  comp : Comp
  dom : DNode
  commits : Nat
  fresh : Nat

/-- The update loop of _processBatchedUpdates applied to a one-component
world: each queue occurrence of the instance runs _updateComponent once. -/
def flushWorld (w : CWorld) (dn : DNode) (fresh : Nat) : FlushRes :=
  w.queue.foldl
    (fun acc _ =>
      let r := updateComponent acc.comp acc.dom acc.fresh
      { comp := r.comp, dom := r.dom, commits := acc.commits + r.commitCalls
        fresh := r.fresh })
    { comp := w.comp, dom := dn, commits := 0, fresh := fresh }

/-- A render container of the public API, holding _rootDOMNode. -/
structure RContainer where
  rootNode : Option DNode

/-- LitteDOM.render (lines 2070-2102) via ReconciliationManager.mount
(lines 1084-1111): clear the container's entire content (innerHTML = ''),
render the vnode from scratch, append it, store it as _rootDOMNode.  No
diffing against a previous render happens on this path.  (componentDidMount
scheduling and the effect flush contribute no render-target mutations
here.) -/
def renderAPI (v : VNode) (_c : RContainer) (fresh : Nat) :
    RContainer × List Op × Nat :=
  let (d, f') := renderVNode v fresh
  ({ rootNode := some d },
    [Op.clearContainer, Op.createNode d.nid, Op.appendChild d.nid], f')

/-! # Theorems

General lemmas first, then one theorem per claim of the specification, each
preceded by a doc comment naming the claim. -/

/-! ## Child normalization (claim C9) -/

theorem mem_flatOne {children : List JVal} {b : JVal} (hb : b ∈ flatOne children) :
    (∃ ys, JVal.jarr ys ∈ children ∧ b ∈ ys) ∨ (b ∈ children ∧ b.isArr = false) := by
  rw [flatOne, List.mem_flatMap] at hb
  obtain ⟨x, hx, hbx⟩ := hb
  cases x with
  | jarr ys => exact Or.inl ⟨ys, hx, hbx⟩
  | jnull => simp at hbx; subst hbx; exact Or.inr ⟨hx, rfl⟩
  | jundef => simp at hbx; subst hbx; exact Or.inr ⟨hx, rfl⟩
  | jstr s => simp at hbx; subst hbx; exact Or.inr ⟨hx, rfl⟩
  | jnum n => simp at hbx; subst hbx; exact Or.inr ⟨hx, rfl⟩
  | jbool v => simp at hbx; subst hbx; exact Or.inr ⟨hx, rfl⟩
  | jnode v => simp at hbx; subst hbx; exact Or.inr ⟨hx, rfl⟩

theorem normalizeChild_isNode {b : JVal} (hb : b.isArr = false) :
    (normalizeChild b).isNode = true := by
  cases b with
  | jarr xs => exact absurd hb (by simp [JVal.isArr])
  | jnull => rfl
  | jundef => rfl
  | jstr s => rfl
  | jnum n => rfl
  | jbool v => rfl
  | jnode v => rfl

theorem mem_buildChildren {children : List JVal} {c : JVal}
    (hc : c ∈ buildChildren children) :
    ∃ b, b ∈ flatOne children ∧ b.nonNull = true ∧ c = normalizeChild b := by
  rw [buildChildren, List.mem_map] at hc
  obtain ⟨b, hb, hbc⟩ := hc
  rw [List.mem_filter] at hb
  exact ⟨b, hb.1, hb.2, hbc.symm⟩

/-- Claim C9 (counterexample).  The constructor is claimed to flatten
arbitrarily nested child arrays and leave only virtual nodes; but
Array.prototype.flat() with no argument flattens a single level, so a
doubly nested child array survives the pipeline as a raw (non-node) array
child. -/
theorem createElement_nested_array_counterexample :
    buildChildren [JVal.jarr [JVal.jarr [JVal.jstr "x"]]]
        = [JVal.jarr [JVal.jstr "x"]] ∧
      (buildChildren [JVal.jarr [JVal.jarr [JVal.jstr "x"]]]).any
        (fun c => !c.isNode) = true :=
  ⟨rfl, rfl⟩

/-- Claim C9 (amended).  Child arrays are flattened exactly one level (not
recursively); null and undefined children are dropped; each remaining
non-object child is wrapped into a Text node.  Hence when no child nests
arrays two levels deep, the resulting children list contains only virtual
nodes; in general every member of the result is a virtual node or a
leftover nested array, and never null/undefined. -/
theorem createElement_children_normalization :
    (∀ children : List JVal, (∀ x ∈ children, shallowNest x = true) →
      ∀ c ∈ buildChildren children, c.isNode = true) ∧
    (∀ children : List JVal, ∀ c ∈ buildChildren children,
      c.isNode = true ∨ c.isArr = true) ∧
    (∀ children : List JVal, ∀ c ∈ buildChildren children, c.nonNull = true) := by
  refine ⟨?_, ?_, ?_⟩
  · intro children hsh c hc
    obtain ⟨b, hbf, _, hcb⟩ := mem_buildChildren hc
    subst hcb
    rcases mem_flatOne hbf with ⟨ys, hys, hby⟩ | ⟨_, hbarr⟩
    · apply normalizeChild_isNode
      have := hsh _ hys
      rw [shallowNest, List.all_eq_true] at this
      have := this b hby
      cases b <;> simp_all [JVal.isArr]
    · exact normalizeChild_isNode hbarr
  · intro children c hc
    obtain ⟨b, _, _, hcb⟩ := mem_buildChildren hc
    subst hcb
    by_cases hb : b.isArr = true
    · right
      cases b <;> simp_all [normalizeChild, JVal.isObject, JVal.isArr]
    · exact Or.inl (normalizeChild_isNode (by simpa using hb))
  · intro children c hc
    obtain ⟨b, _, hbn, hcb⟩ := mem_buildChildren hc
    subst hcb
    cases b <;> simp_all [normalizeChild, JVal.isObject, JVal.nonNull]

/-- Witness for the amended C9 theorem at a concrete children list. -/
theorem createElement_children_normalization_witness :
    ∀ c ∈ buildChildren [JVal.jstr "a", JVal.jarr [JVal.jnull, JVal.jnum 3]],
      c.isNode = true :=
  createElement_children_normalization.1
    [JVal.jstr "a", JVal.jarr [JVal.jnull, JVal.jnum 3]] (by decide)

/-! ## Hook calls outside a render context (claim C6) -/

/-- Claim C6 (counterexample).  useRef called with no active component
render context does not raise the HookContextError to the caller: the
try/catch in its body swallows the exception and the call returns a fresh
ref object carrying the initial value (the sink is notified). -/
theorem useRef_outside_context_returns_value :
    useRefE none 0 7 = { result := Except.ok 7, reported := true } := rfl

/-- Claim C6 (amended).  Outside an active component render context only
useState raises the HookContextError to its caller; useEffect, useReducer,
useRef and useMemo construct it but catch it internally, report it to the
error sink, and return a fallback value (undefined, the pair of an empty
state object with a no-op dispatch, a ref holding the initial value, and
null, respectively). -/
theorem hooks_outside_context_behavior :
    (∀ idx initv, useStateE none idx initv
      = { result := Except.error HookErr.hookCtx, reported := false }) ∧
    (useEffectE none = { result := Except.ok (), reported := true }) ∧
    (∀ idx initv, useReducerE none idx initv
      = { result := Except.ok 0, reported := true }) ∧
    (∀ idx initv, useRefE none idx initv
      = { result := Except.ok initv, reported := true }) ∧
    (∀ idx fv, useMemoE none idx fv
      = { result := Except.ok none, reported := true }) :=
  ⟨fun _ _ => rfl, rfl, fun _ _ => rfl, fun _ _ => rfl, fun _ _ => rfl⟩

/-! ## unmountComponentAtNode (claim C10) -/

/-- Claim C10.  unmountComponentAtNode returns true exactly when the
container holds a stored root and the host clear operation succeeds: on
success it runs the unmount cascade on the root, clears the content and
nulls the stored root; with no stored root it returns false having done
nothing; when the host clear throws, the catch clause returns false (the
cascade has already run). -/
theorem unmountComponentAtNode_behavior (c : Container) (hostOk : Bool) :
    ((unmountAtNode c hostOk).1 = (c.root.isSome && hostOk)) ∧
    (∀ rt, c.root = some rt → hostOk = true →
      (unmountAtNode c hostOk).2.1 = { root := none, content := [] } ∧
      (unmountAtNode c hostOk).2.2 = [UOp.cascade rt, UOp.clearContent]) ∧
    (c.root = none → unmountAtNode c hostOk = (false, c, [])) ∧
    (∀ rt, c.root = some rt → hostOk = false →
      (unmountAtNode c hostOk).1 = false ∧
      UOp.cascade rt ∈ (unmountAtNode c hostOk).2.2) := by
  cases hc : c.root <;> cases hostOk <;> simp [unmountAtNode, hc]

/-- Witness for C10 at a concrete container. -/
theorem unmountComponentAtNode_behavior_witness :
    (unmountAtNode ⟨some 5, [1, 2]⟩ true).2.1 = { root := none, content := [] } ∧
    (unmountAtNode ⟨some 5, [1, 2]⟩ true).2.2 = [UOp.cascade 5, UOp.clearContent] :=
  (unmountComponentAtNode_behavior ⟨some 5, [1, 2]⟩ true).2.1 5 rfl rfl

/-! ## The effect re-run policy (claim C3) -/

theorem effTraceAux_eq (ret : Nat → Bool) :
    ∀ (ds : List JDeps) (i : Nat) (st : Option EffHook),
      effTraceAux ret i st ds =
        buildTraceFrom ret (st.bind fun h => h.cleanup)
          (runsFrom i (st.map fun h => h.deps) ds) := by
  intro ds
  induction ds with
  | nil => intro i st; cases st <;> rfl
  | cons d ds ih =>
    intro i st
    cases st with
    | none =>
      simp [effTraceAux, effRender, runsFrom, buildTraceFrom, ih]
    | some h =>
      by_cases hr : shouldRunB h.deps d
      · simp [effTraceAux, effRender, runsFrom, buildTraceFrom, hr, ih]
      · rw [Bool.not_eq_true] at hr
        simp [effTraceAux, effRender, runsFrom, buildTraceFrom, hr, ih]

theorem runBody_mem_buildTraceFrom (ret : Nat → Bool) (j : Nat) :
    ∀ (js : List Nat) (cl : Option Nat),
      (EffEv.runBody j ∈ buildTraceFrom ret cl js) ↔ j ∈ js := by
  intro js
  induction js with
  | nil => intro cl; simp [buildTraceFrom]
  | cons x xs ih =>
    intro cl
    cases cl <;> simp [buildTraceFrom, ih]

theorem bodyCount_buildTraceFrom (ret : Nat → Bool) :
    ∀ (js : List Nat) (cl : Option Nat),
      bodyCount (buildTraceFrom ret cl js) = js.length := by
  intro js
  induction js with
  | nil => intro cl; rfl
  | cons x xs ih =>
    intro cl
    cases cl <;> simp [buildTraceFrom, bodyCount, List.countP_append, List.countP_cons] <;>
      simpa [bodyCount] using ih _

theorem zip_any_ne_iff : ∀ (a b : List Nat), a.length = b.length →
    (((a.zip b).any fun p => decide (p.1 ≠ p.2)) = true ↔ a ≠ b) := by
  intro a
  induction a with
  | nil =>
    intro b hb
    cases b with
    | nil => simp
    | cons y ys => cases hb
  | cons x xs ih =>
    intro b hb
    cases b with
    | nil => cases hb
    | cons y ys =>
      have hl : xs.length = ys.length := by
        simpa using hb
      simp only [List.zip_cons_cons, List.any_cons, Bool.or_eq_true, decide_eq_true_eq,
        ih ys hl, ne_eq, List.cons.injEq, not_and_or]

/-- The embedded re-run decision agrees with the spec-side rule: null is
treated like undefined, and array deps re-run exactly when the identity
list differs from the stored one. -/
theorem shouldRunB_eq_rerunSpec (stored fresh : JDeps) :
    shouldRunB stored fresh = rerunSpec stored fresh := by
  cases fresh with
  | undef => rfl
  | null => rfl
  | arr ds =>
    cases stored with
    | undef => rfl
    | null => rfl
    | arr old =>
      simp only [shouldRunB, rerunSpec]
      by_cases hl : ds.length = old.length
      · rw [if_neg (by omega)]
        by_cases hne : ds = old
        · subst hne
          rw [decide_eq_false (fun h => h rfl : ¬ds ≠ ds), ← Bool.not_eq_true]
          intro hany
          exact (zip_any_ne_iff ds ds rfl).mp hany rfl
        · rw [decide_eq_true hne]
          exact (zip_any_ne_iff ds old hl).mpr hne
      · rw [if_pos (by omega)]
        have : ds ≠ old := fun h => hl (by rw [h])
        rw [decide_eq_true this]

theorem mem_runsFrom_iff : ∀ (ds : List JDeps) (prev : Option JDeps) (i j : Nat),
    (j ∈ runsFrom i prev ds) ↔ (i ≤ j ∧ runsAtB prev ds (j - i) = true) := by
  intro ds
  induction ds with
  | nil => intro prev i j; simp [runsFrom, runsAtB]
  | cons d ds ih =>
    intro prev i j
    have step : i < j → (runsAtB prev (d :: ds) (j - i) = runsAtB (some d) ds (j - (i + 1))) := by
      intro hij
      have h1 : j - i = (j - (i + 1)) + 1 := by omega
      rw [h1]
      rfl
    have run0 : ∀ p, runsAtB (some p) (d :: ds) 0 = rerunSpec p d := fun _ => rfl
    cases prev with
    | none =>
      simp only [runsFrom, List.mem_cons]
      constructor
      · rintro (rfl | hj)
        · exact ⟨Nat.le_refl _, by simp [runsAtB]⟩
        · obtain ⟨hij, hru⟩ := (ih (some d) (i + 1) j).mp hj
          have hlt : i < j := by omega
          exact ⟨Nat.le_of_lt hlt, by rw [step hlt]; exact hru⟩
      · rintro ⟨hij, hru⟩
        rcases Nat.eq_or_lt_of_le hij with rfl | hlt
        · exact Or.inl rfl
        · right
          apply (ih (some d) (i + 1) j).mpr
          refine ⟨by omega, ?_⟩
          rw [← step hlt]
          exact hru
    | some p =>
      by_cases hr : shouldRunB p d
      · simp only [runsFrom, hr, if_true, List.singleton_append, List.mem_cons]
        constructor
        · rintro (rfl | hj)
          · refine ⟨Nat.le_refl _, ?_⟩
            rw [Nat.sub_self, run0, ← shouldRunB_eq_rerunSpec]
            exact hr
          · obtain ⟨hij, hru⟩ := (ih (some d) (i + 1) j).mp hj
            have hlt : i < j := by omega
            exact ⟨Nat.le_of_lt hlt, by rw [step hlt]; exact hru⟩
        · rintro ⟨hij, hru⟩
          rcases Nat.eq_or_lt_of_le hij with rfl | hlt
          · exact Or.inl rfl
          · right
            apply (ih (some d) (i + 1) j).mpr
            refine ⟨by omega, ?_⟩
            rw [← step hlt]
            exact hru
      · have hrw : runsFrom i (some p) (d :: ds) = runsFrom (i + 1) (some d) ds := by
          rw [Bool.not_eq_true] at hr
          simp [runsFrom, hr]
        rw [hrw, ih (some d) (i + 1) j]
        constructor
        · rintro ⟨hij, hru⟩
          have hlt : i < j := by omega
          exact ⟨Nat.le_of_lt hlt, by rw [step hlt]; exact hru⟩
        · rintro ⟨hij, hru⟩
          rcases Nat.eq_or_lt_of_le hij with rfl | hlt
          · rw [Nat.sub_self, run0, ← shouldRunB_eq_rerunSpec] at hru
            exact absurd hru hr
          · refine ⟨by omega, ?_⟩
            rw [← step hlt]
            exact hru

theorem runsFrom_replicate_empty :
    ∀ (n : Nat) (i : Nat), runsFrom i (some (JDeps.arr [])) (List.replicate n (JDeps.arr [])) = [] := by
  intro n
  induction n with
  | zero => intro i; rfl
  | succ m ih =>
    intro i
    simp only [List.replicate_succ, runsFrom, shouldRunB]
    simpa using ih (i + 1)

/-- Claim C3 (counterexample).  With deps === null passed on every render,
the effect body re-runs on every render (the !deps test treats null like
undefined), not once-and-never-again as claimed: over two renders with null
deps the body runs twice. -/
theorem useEffect_null_deps_counterexample :
    effTrace (fun _ => false) [JDeps.null, JDeps.null]
      = [EffEv.runBody 0, EffEv.runBody 1] := rfl

/-- Claim C3 (amended).  For an effect hook record at a fixed cursor
position: the trace over any render sequence is exactly the run-indices
trace in which each re-run first invokes the cleanup returned by the
previous run (if any) and then the new body; the stored-deps re-run
decision equals the spec rule where deps === null behaves like undefined
(re-run on every render) and array deps re-run iff the identity list
differs from the previous render's (different length or some positional
element of different identity); the body runs at render j iff j is the
first render or that rule fires against the deps of render j-1; and with
deps = [] the body runs exactly once across any number of re-renders. -/
theorem useEffect_rerun_policy :
    (∀ (ret : Nat → Bool) (rs : List JDeps),
      effTrace ret rs = buildTraceFrom ret none (runsFrom 0 none rs)) ∧
    (∀ stored fresh, shouldRunB stored fresh = rerunSpec stored fresh) ∧
    (∀ (ret : Nat → Bool) (rs : List JDeps) (j : Nat),
      (EffEv.runBody j ∈ effTrace ret rs) ↔ runsAtB none rs j = true) ∧
    (∀ (ret : Nat → Bool) (n : Nat),
      bodyCount (effTrace ret (List.replicate (n + 1) (JDeps.arr []))) = 1) := by
  have htrace : ∀ (ret : Nat → Bool) (rs : List JDeps),
      effTrace ret rs = buildTraceFrom ret none (runsFrom 0 none rs) := by
    intro ret rs
    rw [effTrace, effTraceAux_eq]
    rfl
  refine ⟨htrace, shouldRunB_eq_rerunSpec, ?_, ?_⟩
  · intro ret rs j
    rw [htrace, runBody_mem_buildTraceFrom, mem_runsFrom_iff]
    simp
  · intro ret n
    rw [htrace, bodyCount_buildTraceFrom]
    simp only [List.replicate_succ, runsFrom, runsFrom_replicate_empty]
    rfl

/-! ## The scheduler invariants (claim C7) -/

theorem schedUpdate_effectQueue (s : Sched) (c : Nat) :
    (schedUpdate s c).effectQueue = s.effectQueue := by
  rw [schedUpdate]
  split <;> rfl

theorem schedEffect_updateQueue (s : Sched) (e : Nat) :
    (schedEffect s e).updateQueue = s.updateQueue := rfl

theorem schedUpdate_nodup {s : Sched} (h : s.updateQueue.Nodup) (c : Nat) :
    (schedUpdate s c).updateQueue.Nodup := by
  rw [schedUpdate]
  split
  · exact h
  · next hc =>
    simp only [List.nodup_append, List.nodup_singleton, true_and]
    refine ⟨h, ?_⟩
    intro x hx hx1
    simp only [List.mem_singleton] at hx1
    subst hx1
    exact hc (List.elem_eq_true_of_mem hx)

theorem mem_schedUpdate {s : Sched} {c x : Nat}
    (hx : x ∈ (schedUpdate s c).updateQueue) : x ∈ s.updateQueue ∨ x = c := by
  rw [schedUpdate] at hx
  split at hx
  · exact Or.inl hx
  · rcases List.mem_append.mp hx with h | h
    · exact Or.inl h
    · exact Or.inr (by simpa using h)

theorem foldl_schedUpdate_nodup :
    ∀ (cs : List Nat) (s : Sched), s.updateQueue.Nodup →
      (cs.foldl schedUpdate s).updateQueue.Nodup := by
  intro cs
  induction cs with
  | nil => intro s h; exact h
  | cons c cs ih => intro s h; exact ih _ (schedUpdate_nodup h c)

theorem foldl_schedUpdate_effectQueue :
    ∀ (cs : List Nat) (s : Sched),
      (cs.foldl schedUpdate s).effectQueue = s.effectQueue := by
  intro cs
  induction cs with
  | nil => intro s; rfl
  | cons c cs ih => intro s; rw [List.foldl_cons, ih, schedUpdate_effectQueue]

theorem mem_foldl_schedUpdate :
    ∀ (cs : List Nat) (s : Sched) (x : Nat),
      x ∈ (cs.foldl schedUpdate s).updateQueue → x ∈ s.updateQueue ∨ x ∈ cs := by
  intro cs
  induction cs with
  | nil => intro s x h; exact Or.inl h
  | cons c cs ih =>
    intro s x h
    rcases ih _ x h with h1 | h1
    · rcases mem_schedUpdate h1 with h2 | h2
      · exact Or.inl h2
      · exact Or.inr (by simp [h2])
    · exact Or.inr (List.mem_cons_of_mem _ h1)

theorem foldl_schedEffect_updateQueue :
    ∀ (es : List Nat) (s : Sched),
      (es.foldl schedEffect s).updateQueue = s.updateQueue := by
  intro es
  induction es with
  | nil => intro s; rfl
  | cons e es ih => intro s; rw [List.foldl_cons, ih]; rfl

theorem foldl_schedEffect_effectQueue :
    ∀ (es : List Nat) (s : Sched),
      (es.foldl schedEffect s).effectQueue = s.effectQueue ++ es := by
  intro es
  induction es with
  | nil => intro s; simp
  | cons e es ih => intro s; rw [List.foldl_cons, ih]; simp [schedEffect]

theorem runUpdatePhase_nodup (beh : Nat → UpdBeh) :
    ∀ (snap : List Nat) (s : Sched), s.updateQueue.Nodup →
      (runUpdatePhase beh snap s).updateQueue.Nodup := by
  intro snap
  induction snap with
  | nil => intro s h; exact h
  | cons c cs ih =>
    intro s h
    apply ih
    rw [foldl_schedEffect_updateQueue]
    exact foldl_schedUpdate_nodup _ _ h

theorem runUpdatePhase_effectQueue (beh : Nat → UpdBeh) :
    ∀ (snap : List Nat) (s : Sched),
      (runUpdatePhase beh snap s).effectQueue
        = s.effectQueue ++ snap.flatMap fun c => (beh c).effects := by
  intro snap
  induction snap with
  | nil => intro s; simp [runUpdatePhase]
  | cons c cs ih =>
    intro s
    show (runUpdatePhase beh cs _).effectQueue = _
    rw [ih, foldl_schedEffect_effectQueue, foldl_schedUpdate_effectQueue]
    simp

theorem mem_runUpdatePhase (beh : Nat → UpdBeh) :
    ∀ (snap : List Nat) (s : Sched) (x : Nat),
      x ∈ (runUpdatePhase beh snap s).updateQueue →
        x ∈ s.updateQueue ∨ ∃ c ∈ snap, x ∈ (beh c).updates := by
  intro snap
  induction snap with
  | nil => intro s x h; exact Or.inl h
  | cons c cs ih =>
    intro s x h
    rcases ih _ x h with h1 | ⟨c', hc', hx⟩
    · rw [foldl_schedEffect_updateQueue] at h1
      rcases mem_foldl_schedUpdate _ _ x h1 with h2 | h2
      · exact Or.inl h2
      · exact Or.inr ⟨c, by simp, h2⟩
    · exact Or.inr ⟨c', List.mem_cons_of_mem _ hc', hx⟩

theorem runEffectPhase_nodup (ebeh : Nat → UpdBeh) :
    ∀ (esnap : List Nat) (s : Sched), s.updateQueue.Nodup →
      (runEffectPhase ebeh esnap s).updateQueue.Nodup := by
  intro esnap
  induction esnap with
  | nil => intro s h; exact h
  | cons e es ih =>
    intro s h
    apply ih
    rw [foldl_schedEffect_updateQueue]
    exact foldl_schedUpdate_nodup _ _ h

theorem runEffectPhase_effectQueue (ebeh : Nat → UpdBeh) :
    ∀ (esnap : List Nat) (s : Sched),
      (runEffectPhase ebeh esnap s).effectQueue
        = s.effectQueue ++ esnap.flatMap fun e => (ebeh e).effects := by
  intro esnap
  induction esnap with
  | nil => intro s; simp [runEffectPhase]
  | cons e es ih =>
    intro s
    show (runEffectPhase ebeh es _).effectQueue = _
    rw [ih, foldl_schedEffect_effectQueue, foldl_schedUpdate_effectQueue]
    simp

theorem mem_runEffectPhase (ebeh : Nat → UpdBeh) :
    ∀ (esnap : List Nat) (s : Sched) (x : Nat),
      x ∈ (runEffectPhase ebeh esnap s).updateQueue →
        x ∈ s.updateQueue ∨ ∃ e ∈ esnap, x ∈ (ebeh e).updates := by
  intro esnap
  induction esnap with
  | nil => intro s x h; exact Or.inl h
  | cons e es ih =>
    intro s x h
    rcases ih _ x h with h1 | ⟨e', he', hx⟩
    · rw [foldl_schedEffect_updateQueue] at h1
      rcases mem_foldl_schedUpdate _ _ x h1 with h2 | h2
      · exact Or.inl h2
      · exact Or.inr ⟨e, by simp, h2⟩
    · exact Or.inr ⟨e', List.mem_cons_of_mem _ he', hx⟩

/-- Claim C7.  The pending-update queue never holds an instance twice (any
sequence of scheduleUpdate calls from a duplicate-free queue keeps it
duplicate-free, so every instance is counted at most once per flush); a
flush processes exactly the snapshot taken when it began, whatever further
scheduling its updates and effects perform; the effects executed are
exactly those queued when the effect phase begins (the prior queue plus
effects queued by this pass's updates); and everything scheduled during the
flush lands in the post-flush queues for the next cycle: the post-flush
update queue is duplicate-free and holds only instances scheduled during
the flush, and the post-flush effect queue holds exactly the effects
scheduled during the effect iteration itself. -/
theorem scheduler_dedup_and_snapshot_isolation :
    (∀ (s : Sched) (cs : List Nat), s.updateQueue.Nodup →
      ((cs.foldl schedUpdate s).updateQueue.Nodup ∧
        ∀ x, (cs.foldl schedUpdate s).updateQueue.count x ≤ 1)) ∧
    (∀ (beh ebeh : Nat → UpdBeh) (s : Sched),
      (processBatchedUpdates beh ebeh s).2.1 = s.updateQueue) ∧
    (∀ (beh ebeh : Nat → UpdBeh) (s : Sched),
      (processBatchedUpdates beh ebeh s).2.2
        = s.effectQueue ++ s.updateQueue.flatMap fun c => (beh c).effects) ∧
    (∀ (beh ebeh : Nat → UpdBeh) (s : Sched),
      (processBatchedUpdates beh ebeh s).1.updateQueue.Nodup ∧
      (∀ x ∈ (processBatchedUpdates beh ebeh s).1.updateQueue,
        (∃ c ∈ s.updateQueue, x ∈ (beh c).updates) ∨
          (∃ e ∈ (processBatchedUpdates beh ebeh s).2.2, x ∈ (ebeh e).updates)) ∧
      (processBatchedUpdates beh ebeh s).1.effectQueue
        = (processBatchedUpdates beh ebeh s).2.2.flatMap fun e => (ebeh e).effects) := by
  refine ⟨?_, ?_, ?_, ?_⟩
  · intro s cs h
    refine ⟨foldl_schedUpdate_nodup cs s h, fun x => ?_⟩
    exact List.nodup_iff_count_le_one.mp (foldl_schedUpdate_nodup cs s h) x
  · intro beh ebeh s
    rfl
  · intro beh ebeh s
    show (runUpdatePhase beh s.updateQueue { s with updateQueue := [] }).effectQueue = _
    rw [runUpdatePhase_effectQueue]
  · intro beh ebeh s
    refine ⟨?_, ?_, ?_⟩
    · apply runEffectPhase_nodup
      apply runUpdatePhase_nodup
      exact List.nodup_nil
    · intro x hx
      rcases mem_runEffectPhase _ _ _ x hx with h1 | ⟨e, he, hx'⟩
      · rcases mem_runUpdatePhase _ _ _ x h1 with h2 | ⟨c, hc, hx'⟩
        · cases h2
        · exact Or.inl ⟨c, hc, hx'⟩
      · exact Or.inr ⟨e, he, hx'⟩
    · show (runEffectPhase ebeh _ _).effectQueue = _
      rw [runEffectPhase_effectQueue]
      rfl

/-- Witness for C7 at a concrete scheduling sequence. -/
theorem scheduler_dedup_witness :
    (([5, 5, 7] : List Nat).foldl schedUpdate ⟨[], []⟩).updateQueue.Nodup ∧
      ∀ x, (([5, 5, 7] : List Nat).foldl schedUpdate ⟨[], []⟩).updateQueue.count x ≤ 1 :=
  scheduler_dedup_and_snapshot_isolation.1 ⟨[], []⟩ [5, 5, 7] List.nodup_nil

/-! ## Event dispatch (claim C8) -/

theorem phaseWalk_char (beh : Nat → HBeh) :
    ∀ (hs : List (Option Nat)) (st : EvFlags), st.stopped = false →
      phaseWalk beh hs st =
        ((takeThroughStop beh (hs.filterMap id)).1,
          { stopped := (takeThroughStop beh (hs.filterMap id)).2.1
            prevented := st.prevented || (takeThroughStop beh (hs.filterMap id)).2.2 }) := by
  intro hs
  induction hs with
  | nil =>
    intro st hst
    cases st with
    | mk stp prv =>
      simp only at hst
      subst hst
      simp [phaseWalk, takeThroughStop]
  | cons h rest ih =>
    intro st hst
    cases h with
    | none =>
      simp only [phaseWalk, execNode, hst, Bool.false_eq_true, if_false,
        List.filterMap_cons_none, List.nil_append]
      exact ih st hst
    | some hid =>
      by_cases hstop : (beh hid).stops
      · simp [phaseWalk, execNode, hst, hstop, takeThroughStop]
      · rw [Bool.not_eq_true] at hstop
        have h2 : (execNode beh (some hid) st).2.stopped = false := by
          simp [execNode, hst, hstop]
        simp only [phaseWalk, h2, Bool.false_eq_true, if_false]
        rw [ih _ h2]
        simp [execNode, takeThroughStop, hstop, Bool.or_assoc]

/-- Claim C8.  For every dispatch: the handlers invoked are exactly the
capture handlers along the root-to-target path up to (and including) the
first one that stops propagation, followed — only if no capture handler
stopped — by the bubble handlers along the target-to-root path, again cut
at the first stopper; no handler anywhere runs after stopPropagation was
called; and preventDefault is invoked on the native event exactly when the
synthetic event's default was prevented by some handler that ran. -/
theorem event_dispatch_order (beh : Nat → HBeh) (path : List ENode) :
    ((dispatchEvent beh path).1 =
      if (takeThroughStop beh (path.filterMap ENode.capture)).2.1 then
        (takeThroughStop beh (path.filterMap ENode.capture)).1
      else
        (takeThroughStop beh (path.filterMap ENode.capture)).1 ++
          (takeThroughStop beh ((path.filterMap ENode.bubble).reverse)).1) ∧
    ((dispatchEvent beh path).2.2 = (dispatchEvent beh path).2.1.prevented) ∧
    ((dispatchEvent beh path).2.1.prevented =
      ((takeThroughStop beh (path.filterMap ENode.capture)).2.2 ||
        (!(takeThroughStop beh (path.filterMap ENode.capture)).2.1 &&
          (takeThroughStop beh ((path.filterMap ENode.bubble).reverse)).2.2))) := by
  have hcap := phaseWalk_char beh (path.map ENode.capture) ⟨false, false⟩ rfl
  simp only [List.filterMap_map, Function.id_comp, Bool.false_or] at hcap
  by_cases hstop : (takeThroughStop beh (path.filterMap ENode.capture)).2.1 = true
  · refine ⟨?_, ?_, ?_⟩ <;> simp [dispatchEvent, hcap, hstop]
  · rw [Bool.not_eq_true] at hstop
    have hcs : (phaseWalk beh (path.map ENode.capture) ⟨false, false⟩).2.stopped = false := by
      rw [hcap]
      exact hstop
    have hbub := phaseWalk_char beh (path.reverse.map ENode.bubble)
      (phaseWalk beh (path.map ENode.capture) ⟨false, false⟩).2 hcs
    rw [hcap] at hbub
    simp only [List.map_reverse, List.filterMap_reverse, List.filterMap_map,
      Function.id_comp, hstop] at hbub
    refine ⟨?_, ?_, ?_⟩ <;> simp [dispatchEvent, hcap, hbub, hstop]

/-! ## setState batching (claim C2) -/

theorem setStateW_comp_fields (w : CWorld) (p : SMap) :
    ((setStateW w p).comp.isMounted = w.comp.isMounted) ∧
    ((setStateW w p).comp.renderInProgress = w.comp.renderInProgress) ∧
    ((setStateW w p).comp.overridesSCU = w.comp.overridesSCU) ∧
    ((setStateW w p).comp.gate = w.comp.gate) ∧
    ((setStateW w p).comp.state = w.comp.state) ∧
    ((setStateW w p).comp.pendingState
      = some (mergeStates (w.comp.pendingState.getD emptySMap) p)) :=
  ⟨rfl, rfl, rfl, rfl, rfl, rfl⟩

theorem foldl_setStateW_fields : ∀ (ps : List SMap) (w : CWorld),
    ((ps.foldl setStateW w).comp.isMounted = w.comp.isMounted) ∧
    ((ps.foldl setStateW w).comp.renderInProgress = w.comp.renderInProgress) ∧
    ((ps.foldl setStateW w).comp.overridesSCU = w.comp.overridesSCU) ∧
    ((ps.foldl setStateW w).comp.gate = w.comp.gate) ∧
    ((ps.foldl setStateW w).comp.state = w.comp.state) := by
  intro ps
  induction ps with
  | nil => intro w; exact ⟨rfl, rfl, rfl, rfl, rfl⟩
  | cons p rest ih => intro w; exact ih (setStateW w p)

theorem foldl_setStateW_pending_some : ∀ (ps : List SMap) (w : CWorld) (q : SMap),
    w.comp.pendingState = some q →
    (ps.foldl setStateW w).comp.pendingState = some (ps.foldl mergeStates q) := by
  intro ps
  induction ps with
  | nil => intro w q h; exact h
  | cons p rest ih =>
    intro w q h
    apply ih
    rw [(setStateW_comp_fields w p).2.2.2.2.2, h]
    rfl

theorem setStateW_queue_zero (w : CWorld) (p : SMap)
    (hm : w.comp.isMounted = true) (hr : w.comp.renderInProgress = false)
    (hq : w.queue = [0] ∨ w.queue = []) :
    (setStateW w p).queue = [0] := by
  rcases hq with hq | hq <;>
    simp [setStateW, setStateC, schedUpdate, hm, hr, hq, List.contains]

theorem foldl_setStateW_queue : ∀ (ps : List SMap) (w : CWorld),
    w.comp.isMounted = true → w.comp.renderInProgress = false → w.queue = [0] →
    (ps.foldl setStateW w).queue = [0] := by
  intro ps
  induction ps with
  | nil => intro w _ _ hq; exact hq
  | cons p rest ih =>
    intro w hm hr hq
    exact ih (setStateW w p) hm hr (setStateW_queue_zero w p hm hr (Or.inl hq))

/-- One commit step under the guard that the gate does not veto:
_commitState applies the pending state. -/
theorem commitState_apply (c : Comp) (q : SMap) (hp : c.pendingState = some q)
    (hg : ¬(c.isMounted = true ∧ c.overridesSCU = true ∧
      c.gate (mergeStates c.state q) = false)) :
    commitState c =
      { comp := { c with
          state := mergeStates c.state q
          pendingState := none
          pendingCallbacks := [] }
        applied := true
        ranCallbacks := c.pendingCallbacks
        firedDidUpdate := c.isMounted } := by
  simp only [commitState, hp]
  rw [if_neg]
  rintro ⟨h1, h2, h3⟩
  exact hg ⟨h1, h2, h3⟩

/-- _commitState when the custom gate vetoes: pending state discarded,
state untouched, callbacks drained. -/
theorem commitState_veto (c : Comp) (q : SMap) (hp : c.pendingState = some q)
    (hm : c.isMounted = true) (hov : c.overridesSCU = true)
    (hg : c.gate (mergeStates c.state q) = false) :
    commitState c =
      { comp := { c with pendingState := none, pendingCallbacks := [] }
        applied := false
        ranCallbacks := c.pendingCallbacks
        firedDidUpdate := false } := by
  simp only [commitState, hp]
  rw [if_pos ⟨hm, hov, hg⟩]

/-- _updateComponent on a mounted instance: one commit, then re-render and
reconcile in place. -/
theorem updateComponent_mounted (c : Comp) (dn : DNode) (f : Nat)
    (hm : c.isMounted = true) :
    updateComponent c dn f =
      { comp := { (commitState { c with renderInProgress := true }).comp with
          renderInProgress := false }
        dom := (reconcile dn
          ((commitState { c with renderInProgress := true }).comp.renderFn
            (commitState { c with renderInProgress := true }).comp.state) f).1
        ops := (reconcile dn
          ((commitState { c with renderInProgress := true }).comp.renderFn
            (commitState { c with renderInProgress := true }).comp.state) f).2.1
        ranCallbacks := (commitState { c with renderInProgress := true }).ranCallbacks
        commitCalls := 1
        fresh := (reconcile dn
          ((commitState { c with renderInProgress := true }).comp.renderFn
            (commitState { c with renderInProgress := true }).comp.state) f).2.2 } := by
  rw [updateComponent, if_neg (by simp [hm])]

/-- A flush over a queue holding exactly the one instance runs exactly one
update pass on it. -/
theorem flushWorld_single (w : CWorld) (dn : DNode) (f : Nat)
    (hq : w.queue = [0]) :
    flushWorld w dn f =
      { comp := (updateComponent w.comp dn f).comp
        dom := (updateComponent w.comp dn f).dom
        commits := 0 + (updateComponent w.comp dn f).commitCalls
        fresh := (updateComponent w.comp dn f).fresh } := by
  rw [flushWorld, hq]
  rfl

/-- Claim C2.  N setState calls issued synchronously before the batch flush
(mounted instance, not mid-render, idle scheduler) leave the instance
queued exactly once, so the flush performs exactly one commit (one
lifecycle update); and the state after that single commit is the shallow
merge of the previous state with the shallow merge of the partials in call
order (later partials overriding earlier keys), never N independent
mutations.  (The gate hypothesis restricts to components whose
shouldComponentUpdate does not veto this commit; the veto case is claim
C1's.) -/
theorem setState_batching_single_commit (w : CWorld) (ps : List SMap)
    (dn : DNode) (f : Nat)
    (hm : w.comp.isMounted = true)
    (hr : w.comp.renderInProgress = false)
    (hp : w.comp.pendingState = none)
    (hq : w.queue = [])
    (hps : ps ≠ [])
    (hgate : w.comp.overridesSCU = false ∨
      w.comp.gate (mergeStates w.comp.state (ps.foldl mergeStates emptySMap)) = true) :
    ((ps.foldl setStateW w).queue = [0]) ∧
    ((flushWorld (ps.foldl setStateW w) dn f).commits = 1) ∧
    (∀ k, (flushWorld (ps.foldl setStateW w) dn f).comp.state k
      = mergeStates w.comp.state (ps.foldl mergeStates emptySMap) k) := by
  obtain ⟨p, rest, rfl⟩ : ∃ p rest, ps = p :: rest := by
    cases ps with
    | nil => exact absurd rfl hps
    | cons p rest => exact ⟨p, rest, rfl⟩
  have hq1 : ((p :: rest).foldl setStateW w).queue = [0] := by
    rw [List.foldl_cons]
    exact foldl_setStateW_queue rest (setStateW w p)
      hm hr (setStateW_queue_zero w p hm hr (Or.inr hq))
  have hpend : ((p :: rest).foldl setStateW w).comp.pendingState
      = some ((p :: rest).foldl mergeStates emptySMap) := by
    rw [List.foldl_cons]
    have h1 : (setStateW w p).comp.pendingState = some (mergeStates emptySMap p) := by
      rw [(setStateW_comp_fields w p).2.2.2.2.2, hp]
      rfl
    exact foldl_setStateW_pending_some rest (setStateW w p) _ h1
  have hfields := foldl_setStateW_fields (p :: rest) w
  have hflush := flushWorld_single ((p :: rest).foldl setStateW w) dn f hq1
  have hcs := commitState_apply
    { ((p :: rest).foldl setStateW w).comp with renderInProgress := true }
    ((p :: rest).foldl mergeStates emptySMap) hpend ?hgateNoVeto
  case hgateNoVeto =>
    rintro ⟨-, hscu, hgf⟩
    rcases hgate with hgl | hgr
    · rw [show ({ ((p :: rest).foldl setStateW w).comp with
          renderInProgress := true } : Comp).overridesSCU
          = w.comp.overridesSCU from hfields.2.2.1, hgl] at hscu
      exact Bool.false_ne_true hscu
    · rw [show ({ ((p :: rest).foldl setStateW w).comp with
          renderInProgress := true } : Comp).gate
          = w.comp.gate from hfields.2.2.2.1,
        show ({ ((p :: rest).foldl setStateW w).comp with
          renderInProgress := true } : Comp).state
          = w.comp.state from hfields.2.2.2.2, hgr] at hgf
      exact Bool.noConfusion hgf
  have hup := updateComponent_mounted ((p :: rest).foldl setStateW w).comp dn f
    (by rw [hfields.1]; exact hm)
  refine ⟨hq1, ?_, ?_⟩
  · rw [hflush, hup]
    rfl
  · intro k
    rw [hflush, hup, hcs]
    show mergeStates (((p :: rest).foldl setStateW w).comp.state) _ k = _
    rw [hfields.2.2.2.2]

/-- Witness for C2 at a concrete component and one partial. -/
theorem setState_batching_single_commit_witness :
    (([fun k => if k = "a" then some 1 else none] :
        List SMap).foldl setStateW
      ⟨{ state := fun _ => none, pendingState := none, pendingCallbacks := []
         isMounted := true, renderInProgress := false, overridesSCU := false
         gate := fun _ => true, renderFn := fun _ => VNode.text "x" }, []⟩).queue = [0] :=
  (setState_batching_single_commit
    ⟨{ state := fun _ => none, pendingState := none, pendingCallbacks := []
       isMounted := true, renderInProgress := false, overridesSCU := false
       gate := fun _ => true, renderFn := fun _ => VNode.text "x" }, []⟩
    [fun k => if k = "a" then some 1 else none]
    (DNode.dtext 0 "x" (VNode.text "x")) 1
    rfl rfl rfl rfl (List.cons_ne_nil _ _) (Or.inl rfl)).1

/-! ## Keyed child-list reconciliation (claim C5) -/

theorem wmAfter_append : ∀ (ds es : List CDec) (w : Nat),
    wmAfter w (ds ++ es) = wmAfter (wmAfter w ds) es := by
  intro ds
  induction ds with
  | nil => intro es w; rfl
  | cons d ds ih =>
    intro es w
    cases d with
    | created n => exact ih es w
    | patched idx mv => exact ih es (max w idx)

theorem movedSpecOk_append : ∀ (ds es : List CDec) (w : Nat),
    movedSpecOk w (ds ++ es) ↔ (movedSpecOk w ds ∧ movedSpecOk (wmAfter w ds) es) := by
  intro ds
  induction ds with
  | nil => intro es w; simp [movedSpecOk, wmAfter]
  | cons d ds ih =>
    intro es w
    cases d with
    | created n => exact ih es w
    | patched idx mv =>
      show (mv = decide (idx < w)) ∧ movedSpecOk (max w idx) (ds ++ es) ↔ _
      rw [ih es (max w idx)]
      show _ ↔ ((mv = decide (idx < w)) ∧ movedSpecOk (max w idx) ds) ∧
        movedSpecOk (wmAfter (max w idx) ds) es
      rw [and_assoc]

theorem reconChildLoop_movedSpec :
    ∀ (cs : List VNode) (origIds : List Nat) (origLen i : Nat) (st : RCState),
      movedSpecOk 0 st.decs → st.lastIndex = wmAfter 0 st.decs →
      (movedSpecOk 0 (reconChildLoop origIds origLen i st cs).decs ∧
        (reconChildLoop origIds origLen i st cs).lastIndex
          = wmAfter 0 (reconChildLoop origIds origLen i st cs).decs) := by
  intro cs
  induction cs with
  | nil => intro _ _ _ st h1 h2; exact ⟨h1, h2⟩
  | cons c cs ih =>
    intro origIds origLen i st h1 h2
    rw [reconChildLoop]
    cases hfind : findEntry st.entries (entryKeyOf c i) with
    | none =>
      simp only [hfind]
      apply ih
      · show movedSpecOk 0 (st.decs ++ [CDec.created _])
        rw [movedSpecOk_append]
        exact ⟨h1, trivial⟩
      · show st.lastIndex = wmAfter 0 (st.decs ++ [CDec.created _])
        rw [wmAfter_append, h2]
        rfl
    | some e =>
      simp only [hfind]
      by_cases ht : e.vnode.typeOf = c.typeOf
      · rw [if_pos ht]
        apply ih
        · show movedSpecOk 0
            (st.decs ++ [CDec.patched e.index (decide (e.index < st.lastIndex))])
          rw [movedSpecOk_append]
          refine ⟨h1, ?_, trivial⟩
          rw [h2]
        · show (if e.index < st.lastIndex then st.lastIndex else e.index)
            = wmAfter 0 (st.decs ++ [CDec.patched e.index _])
          rw [wmAfter_append, ← h2]
          show _ = max st.lastIndex e.index
          split <;> omega
      · rw [if_neg ht]
        apply ih
        · show movedSpecOk 0 (st.decs ++ [CDec.created _])
          rw [movedSpecOk_append]
          exact ⟨h1, trivial⟩
        · show st.lastIndex = wmAfter 0 (st.decs ++ [CDec.created _])
          rw [wmAfter_append, h2]
          rfl

/-- Claim C5.  In every keyed child-list reconciliation pass: the
per-child decisions obey the watermark rule — a matched child is
physically moved (appended) exactly when its original index is strictly
below the highest matched original index seen so far, otherwise the
watermark advances to it; every existing entry left unmatched at the end
of the walk is unmounted and removed; and re-rendering keyed children
a, b, c as c, a, b performs zero unmounts, zero creations, zero removals —
only the two reordering appendChild moves — leaving the final child order
c, a, b with all three original nodes preserved. -/
theorem keyed_children_reconciliation :
    (∀ (kids : List DNode) (oldCs newCs : List VNode) (f : Nat),
      movedSpecOk 0 (reconcileChildren kids oldCs newCs f).decs) ∧
    (∀ (kids : List DNode) (oldCs newCs : List VNode) (f : Nat),
      ∀ e ∈ (childPass kids oldCs newCs f).entries,
        Op.unmountCascade e.dn.nid ∈ (reconcileChildren kids oldCs newCs f).ops ∧
          Op.removeChildOp e.dn.nid ∈ (reconcileChildren kids oldCs newCs f).ops) ∧
    ((reconcileChildren
        (renderList [VNode.elem "li" (some "a") [] [], VNode.elem "li" (some "b") [] [],
          VNode.elem "li" (some "c") [] []] 0).1
        [VNode.elem "li" (some "a") [] [], VNode.elem "li" (some "b") [] [],
          VNode.elem "li" (some "c") [] []]
        [VNode.elem "li" (some "c") [] [], VNode.elem "li" (some "a") [] [],
          VNode.elem "li" (some "b") [] []] 100).ops
      = [Op.appendChild 0, Op.appendChild 1]) ∧
    ((reconcileChildren
        (renderList [VNode.elem "li" (some "a") [] [], VNode.elem "li" (some "b") [] [],
          VNode.elem "li" (some "c") [] []] 0).1
        [VNode.elem "li" (some "a") [] [], VNode.elem "li" (some "b") [] [],
          VNode.elem "li" (some "c") [] []]
        [VNode.elem "li" (some "c") [] [], VNode.elem "li" (some "a") [] [],
          VNode.elem "li" (some "b") [] []] 100).decs
      = [CDec.patched 2 false, CDec.patched 0 true, CDec.patched 1 true]) ∧
    ((reconcileChildren
        (renderList [VNode.elem "li" (some "a") [] [], VNode.elem "li" (some "b") [] [],
          VNode.elem "li" (some "c") [] []] 0).1
        [VNode.elem "li" (some "a") [] [], VNode.elem "li" (some "b") [] [],
          VNode.elem "li" (some "c") [] []]
        [VNode.elem "li" (some "c") [] [], VNode.elem "li" (some "a") [] [],
          VNode.elem "li" (some "b") [] []] 100).finalKids.map DNode.nid
      = [2, 0, 1]) := by
  refine ⟨?_, ?_, by decide, by decide, by decide⟩
  · intro kids oldCs newCs f
    exact (reconChildLoop_movedSpec newCs (kids.map DNode.nid) kids.length 0
      { lastIndex := 0
        entries := buildEntries kids oldCs
        nodes := kids.map fun dk => (dk.nid, dk)
        order := kids.map DNode.nid
        ops := []
        decs := []
        fresh := f }
      trivial rfl).1
  · intro kids oldCs newCs f e he
    constructor <;>
    · show _ ∈ (removeLeftover (childPass kids oldCs newCs f)).ops
      rw [removeLeftover]
      refine List.mem_append.mpr (Or.inr ?_)
      rw [List.mem_flatMap]
      exact ⟨e, he, by simp⟩

/-! ### A reconciliation pass over an unchanged tree is a no-op
(helpers for claims C4 and C1) -/

theorem nodupB_iff {α : Type} [DecidableEq α] : ∀ l : List α, nodupB l = true ↔ l.Nodup := by
  intro l
  induction l with
  | nil => simp [nodupB]
  | cons x xs ih =>
    rw [nodupB, Bool.and_eq_true, ih, List.nodup_cons]
    constructor
    · rintro ⟨h1, h2⟩
      refine ⟨fun hm => ?_, h2⟩
      rw [Bool.not_eq_true'] at h1
      rw [show (xs.contains x) = true from List.elem_eq_true_of_mem hm] at h1
      cases h1
    · rintro ⟨h1, h2⟩
      refine ⟨?_, h2⟩
      rw [Bool.not_eq_true']
      by_cases hc : xs.contains x = true
      · exact absurd (List.mem_of_elem_eq_true hc) h1
      · exact Bool.not_eq_true _ ▸ (Bool.eq_false_iff.mpr hc)

theorem consistList_mem : ∀ (kids : List DNode), consistList kids = true →
    ∀ dk ∈ kids, consistB dk = true := by
  intro kids
  induction kids with
  | nil => intro _ dk h; cases h
  | cons k ks ih =>
    intro h dk hdk
    rw [consistList, Bool.and_eq_true] at h
    rcases List.mem_cons.mp hdk with rfl | hm
    · exact h.1
    · exact ih h.2 dk hm

theorem wfList_mem : ∀ (cs : List VNode), wfList cs = true →
    ∀ c ∈ cs, wfB c = true := by
  intro cs
  induction cs with
  | nil => intro _ c h; cases h
  | cons x xs ih =>
    intro h c hc
    rw [wfList, Bool.and_eq_true] at h
    rcases List.mem_cons.mp hc with rfl | hm
    · exact h.1
    · exact ih h.2 c hm

theorem idsOkList_mem : ∀ (kids : List DNode), idsOkList kids = true →
    ∀ dk ∈ kids, idsOkB dk = true := by
  intro kids
  induction kids with
  | nil => intro _ dk h; cases h
  | cons k ks ih =>
    intro h dk hdk
    rw [idsOkList, Bool.and_eq_true] at h
    rcases List.mem_cons.mp hdk with rfl | hm
    · exact h.1
    · exact ih h.2 dk hm

theorem lookupP_cons_of_pos (p : String × PVal) (ps : List (String × PVal)) (k : String)
    (h : (p.1 == k) = true) : lookupP (p :: ps) k = some p.2 := by
  rw [lookupP, @List.find?_cons_of_pos (String × PVal) (fun kv => kv.1 == k) p ps h]
  rfl

theorem lookupP_cons_of_neg (p : String × PVal) (ps : List (String × PVal)) (k : String)
    (h : (p.1 == k) = false) : lookupP (p :: ps) k = lookupP ps k := by
  rw [lookupP, lookupP,
    @List.find?_cons_of_neg (String × PVal) (fun kv => kv.1 == k) p ps (by simp [h])]

theorem lookupP_ne_none_of_mem : ∀ (ps : List (String × PVal)) (kv : String × PVal),
    kv ∈ ps → lookupP ps kv.1 ≠ none := by
  intro ps
  induction ps with
  | nil => intro kv h; cases h
  | cons p ps ih =>
    intro kv hkv
    by_cases hp : p.1 = kv.1
    · rw [lookupP_cons_of_pos p ps kv.1 (by simp [hp])]
      exact Option.some_ne_none _
    · have hfalse : (p.1 == kv.1) = false := by
        rw [beq_eq_false_iff_ne]
        exact hp
      rw [lookupP_cons_of_neg p ps kv.1 hfalse]
      rcases List.mem_cons.mp hkv with rfl | hm
      · exact absurd rfl hp
      · exact ih kv hm

theorem lookupP_self_mem : ∀ (ps : List (String × PVal)),
    (ps.map Prod.fst).Nodup → ∀ kv ∈ ps, lookupP ps kv.1 = some kv.2 := by
  intro ps
  induction ps with
  | nil => intro _ kv h; cases h
  | cons p ps ih =>
    intro hnd kv hkv
    rw [List.map_cons, List.nodup_cons] at hnd
    rcases List.mem_cons.mp hkv with rfl | hm
    · exact lookupP_cons_of_pos kv ps kv.1 (by simp)
    · have hp : p.1 ≠ kv.1 := by
        intro he
        exact hnd.1 (he ▸ List.mem_map.mpr ⟨kv, hm, rfl⟩)
      have hfalse : (p.1 == kv.1) = false := by
        rw [beq_eq_false_iff_ne]
        exact hp
      rw [lookupP_cons_of_neg p ps kv.1 hfalse]
      exact ih hnd.2 kv hm

theorem updateRefOps_self : ∀ r : Option PVal, updateRefOps r r = [] := by
  intro r
  cases r <;> simp [updateRefOps]

/-- Diffing a props object against itself issues no mutations. -/
theorem updatePropOps_self (ps : List (String × PVal))
    (h : (ps.map Prod.fst).Nodup) : updatePropOps ps ps = [] := by
  rw [updatePropOps]
  have h1 : (ps.filterMap fun kv =>
      if lookupP ps kv.1 = none ∧ kv.1 ≠ "children" then some (removalOp kv.1)
      else none) = [] := by
    rw [List.filterMap_eq_nil_iff]
    intro kv hkv
    rw [if_neg]
    rintro ⟨hn, -⟩
    exact lookupP_ne_none_of_mem ps kv hkv hn
  have h2 : (ps.filterMap fun kv =>
      if kv.1 ≠ "children" ∧ kv.1 ≠ "key" ∧ lookupP ps kv.1 ≠ some kv.2 then
        updateOp kv.1 kv.2
      else none) = [] := by
    rw [List.filterMap_eq_nil_iff]
    intro kv hkv
    rw [if_neg]
    rintro ⟨-, -, hne⟩
    exact hne (lookupP_self_mem ps h kv hkv)
  rw [h1, h2, updateRefOps_self]
  rfl

theorem lookupNode_init : ∀ (kids : List DNode), (kids.map DNode.nid).Nodup →
    ∀ dk ∈ kids, lookupNode (kids.map fun k => (k.nid, k)) dk.nid = some dk := by
  intro kids
  induction kids with
  | nil => intro _ dk h; cases h
  | cons k ks ih =>
    intro hnd dk hdk
    rw [List.map_cons, List.nodup_cons] at hnd
    rcases List.mem_cons.mp hdk with rfl | hm
    · simp [lookupNode, List.find?]
    · have hne : (k.nid == dk.nid) = false := by
        rw [beq_eq_false_iff_ne]
        intro he
        exact hnd.1 (he ▸ List.mem_map.mpr ⟨dk, hm, rfl⟩)
      rw [List.map_cons, lookupNode, List.find?, hne]
      exact ih hnd.2 dk hm

theorem lookupNode_cons_of_pos (p : Nat × DNode) (ps : List (Nat × DNode)) (x : Nat)
    (h : (p.1 == x) = true) : lookupNode (p :: ps) x = some p.2 := by
  rw [lookupNode, @List.find?_cons_of_pos (Nat × DNode) (fun q => q.1 == x) p ps h]
  rfl

theorem lookupNode_cons_of_neg (p : Nat × DNode) (ps : List (Nat × DNode)) (x : Nat)
    (h : (p.1 == x) = false) : lookupNode (p :: ps) x = lookupNode ps x := by
  rw [lookupNode, lookupNode,
    @List.find?_cons_of_neg (Nat × DNode) (fun q => q.1 == x) p ps (by simp [h])]

theorem lookupNode_append_none : ∀ (as bs : List (Nat × DNode)) (x : Nat),
    lookupNode as x = none → lookupNode (as ++ bs) x = lookupNode bs x := by
  intro as
  induction as with
  | nil => intro bs x _; rfl
  | cons a as ih =>
    intro bs x h
    cases ha : (a.1 == x) with
    | true => rw [lookupNode_cons_of_pos a as x ha] at h; cases h
    | false =>
      rw [lookupNode_cons_of_neg a as x ha] at h
      rw [List.cons_append, lookupNode_cons_of_neg a _ x ha]
      exact ih bs x h

theorem lookupNode_append_some : ∀ (as bs : List (Nat × DNode)) (x : Nat) (d : DNode),
    lookupNode as x = some d → lookupNode (as ++ bs) x = some d := by
  intro as
  induction as with
  | nil => intro bs x d h; cases h
  | cons a as ih =>
    intro bs x d h
    cases ha : (a.1 == x) with
    | true =>
      rw [lookupNode_cons_of_pos a as x ha] at h
      rw [List.cons_append, lookupNode_cons_of_pos a _ x ha]
      exact h
    | false =>
      rw [lookupNode_cons_of_neg a as x ha] at h
      rw [List.cons_append, lookupNode_cons_of_neg a _ x ha]
      exact ih bs x d h

theorem lookupNode_filter_ne : ∀ (ns : List (Nat × DNode)) (id x : Nat), x ≠ id →
    lookupNode (ns.filter fun p => !(p.1 == id)) x = lookupNode ns x := by
  intro ns
  induction ns with
  | nil => intro id x _; rfl
  | cons p ps ih =>
    intro id x hx
    by_cases hp : p.1 = id
    · have hdrop : (!(p.1 == id)) = false := by simp [hp]
      have hpx : (p.1 == x) = false := by
        rw [beq_eq_false_iff_ne, hp]
        exact fun he => hx he.symm
      rw [List.filter_cons, hdrop]
      simp only [Bool.false_eq_true, if_false]
      rw [ih id x hx, lookupNode_cons_of_neg p ps x hpx]
    · have hkeep : (!(p.1 == id)) = true := by simp [hp]
      rw [List.filter_cons, hkeep]
      simp only [if_true]
      cases hpx : (p.1 == x) with
      | true =>
        rw [lookupNode_cons_of_pos p _ x hpx, lookupNode_cons_of_pos p ps x hpx]
      | false =>
        rw [lookupNode_cons_of_neg p _ x hpx, lookupNode_cons_of_neg p ps x hpx]
        exact ih id x hx

theorem lookupNode_filter_self_none : ∀ (ns : List (Nat × DNode)) (id : Nat),
    lookupNode (ns.filter fun p => !(p.1 == id)) id = none := by
  intro ns id
  rw [lookupNode, Option.map_eq_none', List.find?_eq_none]
  intro p hp
  rw [List.mem_filter] at hp
  intro hbeq
  rw [show p.1 = id from by simpa using hbeq] at hp
  simp at hp

/-- Re-registering a node under its own identity leaves every lookup
unchanged. -/
theorem lookupNode_setNode : ∀ (ns : List (Nat × DNode)) (d : DNode) (id : Nat),
    d.nid = id → lookupNode ns id = some d →
    ∀ x, lookupNode (setNode ns id d) x = lookupNode ns x := by
  intro ns d id hid hl x
  rw [setNode]
  by_cases hx : x = id
  · subst hx
    rw [lookupNode_append_none _ _ _ (lookupNode_filter_self_none ns x)]
    rw [hl]
    exact lookupNode_cons_of_pos (d.nid, d) [] x (by simp [hid])
  · have hf := lookupNode_filter_ne ns id x hx
    cases hns : lookupNode ns x with
    | some d0 => exact lookupNode_append_some _ _ _ _ (hf.trans hns)
    | none =>
      rw [lookupNode_append_none _ _ _ (hf.trans hns)]
      rw [lookupNode, List.find?]
      rw [show (d.nid == x) = false from by
        rw [beq_eq_false_iff_ne, hid]
        exact fun he => hx he.symm]
      rfl

theorem orderReplace_self : ∀ (l : List Nat) (a : Nat), orderReplace l a a = l := by
  intro l a
  rw [orderReplace]
  induction l with
  | nil => rfl
  | cons x xs ih =>
    rw [List.map_cons, ih]
    by_cases hx : x = a
    · rw [if_pos hx, hx]
    · rw [if_neg hx]

theorem insertEntry_not_mem (es : List CEntry) (e : CEntry)
    (h : e.ekey ∉ es.map CEntry.ekey) : insertEntry es e = es ++ [e] := by
  rw [insertEntry, if_neg]
  intro hany
  rw [List.any_eq_true] at hany
  obtain ⟨x, hx, hxe⟩ := hany
  exact h (List.mem_map.mpr ⟨x, hx, of_decide_eq_true (by simpa using hxe)⟩)

theorem selfEntries_ekey_inl : ∀ (ds : List DNode) (i : Nat) (k : String),
    (Sum.inl k ∈ (selfEntries i ds).map CEntry.ekey ↔
      k ∈ (ds.map DNode.stored).filterMap VNode.keyOf) := by
  intro ds
  induction ds with
  | nil => intro i k; simp [selfEntries]
  | cons d ds ih =>
    intro i k
    rw [selfEntries, List.map_cons, List.map_cons]
    show Sum.inl k ∈ entryKeyOf d.stored i :: _ ↔ _
    cases hk : d.stored.keyOf with
    | some k0 =>
      rw [List.filterMap_cons_some hk, entryKeyOf, hk]
      rw [List.mem_cons, List.mem_cons, ih]
      simp
    | none =>
      rw [List.filterMap_cons_none hk, entryKeyOf, hk]
      rw [List.mem_cons, ih]
      simp

theorem selfEntries_ekey_inr : ∀ (ds : List DNode) (i m : Nat),
    Sum.inr m ∈ (selfEntries i ds).map CEntry.ekey → i ≤ m := by
  intro ds
  induction ds with
  | nil => intro i m h; cases h
  | cons d ds ih =>
    intro i m h
    rw [selfEntries, List.map_cons] at h
    rcases List.mem_cons.mp h with he | hm
    · rw [entryKeyOf] at he
      cases hk : d.stored.keyOf with
      | some k0 => rw [hk] at he; cases he
      | none =>
        rw [hk] at he
        cases he
        exact Nat.le_refl _
    · exact Nat.le_of_succ_le (ih (i + 1) m hm)

theorem selfEntries_ekeys_nodup : ∀ (ds : List DNode) (i : Nat),
    ((ds.map DNode.stored).filterMap VNode.keyOf).Nodup →
    ((selfEntries i ds).map CEntry.ekey).Nodup := by
  intro ds
  induction ds with
  | nil => intro i _; simp [selfEntries]
  | cons d ds ih =>
    intro i hnd
    rw [selfEntries, List.map_cons, List.nodup_cons]
    cases hk : d.stored.keyOf with
    | some k0 =>
      rw [List.map_cons, List.filterMap_cons_some hk, List.nodup_cons] at hnd
      refine ⟨?_, ih (i + 1) hnd.2⟩
      rw [entryKeyOf, hk]
      intro hmem
      exact hnd.1 ((selfEntries_ekey_inl ds (i + 1) k0).mp hmem)
    | none =>
      rw [List.map_cons, List.filterMap_cons_none hk] at hnd
      refine ⟨?_, ih (i + 1) hnd⟩
      rw [entryKeyOf, hk]
      intro hmem
      have := selfEntries_ekey_inr ds (i + 1) i hmem
      omega

theorem buildEntriesAux_self :
    ∀ (ds pre : List DNode) (acc : List CEntry),
      ((acc.map CEntry.ekey) ++ (selfEntries pre.length ds).map CEntry.ekey).Nodup →
      buildEntriesAux acc pre.length ds ((pre ++ ds).map DNode.stored)
        = acc ++ selfEntries pre.length ds := by
  intro ds
  induction ds with
  | nil =>
    intro pre acc _
    rw [buildEntriesAux, selfEntries, List.append_nil]
  | cons d ds ih =>
    intro pre acc hnd
    have hget : (((pre ++ d :: ds).map DNode.stored).get? pre.length) = some d.stored := by
      rw [List.map_append, List.get?_eq_getElem?, List.getElem?_append_right
        (by rw [List.length_map])]
      simp
    rw [buildEntriesAux, hget]
    show buildEntriesAux
      (insertEntry acc ⟨entryKeyOf d.stored pre.length, d, d.stored, pre.length⟩)
      (pre.length + 1) ds ((pre ++ d :: ds).map DNode.stored) = _
    rw [selfEntries, List.map_cons] at hnd
    have hfresh : entryKeyOf d.stored pre.length ∉ acc.map CEntry.ekey := by
      intro hmem
      exact (List.disjoint_of_nodup_append hnd) hmem (List.mem_cons_self _ _)
    rw [insertEntry_not_mem acc _ hfresh]
    have hlen : (pre ++ [d]).length = pre.length + 1 := by
      simp
    have happ : pre ++ [d] ++ ds = pre ++ d :: ds := by
      rw [List.append_assoc]
      rfl
    have hnd' : (((acc ++
          [(⟨entryKeyOf d.stored pre.length, d, d.stored, pre.length⟩ : CEntry)])
        |>.map CEntry.ekey) ++ (selfEntries (pre.length + 1) ds).map CEntry.ekey).Nodup := by
      rw [List.map_append]
      rw [List.append_assoc]
      exact hnd
    have := ih (pre ++ [d])
      (acc ++ [(⟨entryKeyOf d.stored pre.length, d, d.stored, pre.length⟩ : CEntry)])
      (by rw [hlen]; exact hnd')
    rw [hlen, happ] at this
    rw [this, List.append_assoc]
    rfl

/-- The existingChildren lookup built for a dom child list against its own
stored vnodes is the canonical one-entry-per-child list. -/
theorem buildEntries_self (kids : List DNode)
    (hn : ((selfEntries 0 kids).map CEntry.ekey).Nodup) :
    buildEntries kids (kids.map DNode.stored) = selfEntries 0 kids := by
  have h := buildEntriesAux_self kids [] [] (by simpa using hn)
  simpa [buildEntries] using h

/-- Walking the new children of an unchanged keyed list: every child is
found at its own position, patched to itself, never moved, and the
traversal leaves order, trace, node registry and identity supply
untouched, consuming every lookup entry. -/
theorem reconChildLoop_self :
    ∀ (ds : List DNode) (j : Nat) (st : RCState) (origIds : List Nat) (origLen : Nat),
      (∀ dk ∈ ds, ∀ f', reconcile dk dk.stored f' = (dk, [], f')) →
      st.entries = selfEntries j ds →
      ((selfEntries j ds).map CEntry.ekey).Nodup →
      st.lastIndex ≤ j →
      (∀ dk ∈ ds, lookupNode st.nodes dk.nid = some dk) →
      ((reconChildLoop origIds origLen j st (ds.map DNode.stored)).ops = st.ops ∧
        (reconChildLoop origIds origLen j st (ds.map DNode.stored)).order = st.order ∧
        (reconChildLoop origIds origLen j st (ds.map DNode.stored)).entries = [] ∧
        (reconChildLoop origIds origLen j st (ds.map DNode.stored)).fresh = st.fresh ∧
        (∀ x, lookupNode (reconChildLoop origIds origLen j st (ds.map DNode.stored)).nodes x
          = lookupNode st.nodes x)) := by
  intro ds
  induction ds with
  | nil =>
    intro j st origIds origLen _ hent _ _ _
    exact ⟨rfl, rfl, hent, rfl, fun x => rfl⟩
  | cons dk ds ih =>
    intro j st origIds origLen hIH hent hnodup hlast hnodes
    have hnm : ¬(j < st.lastIndex) := by omega
    have hrec : reconcile dk dk.stored st.fresh = (dk, [], st.fresh) :=
      hIH dk (List.mem_cons_self _ _) st.fresh
    have hfind : findEntry st.entries (entryKeyOf dk.stored j)
        = some ⟨entryKeyOf dk.stored j, dk, dk.stored, j⟩ := by
      rw [hent, selfEntries, findEntry,
        @List.find?_cons_of_pos CEntry
          (fun e => decide (e.ekey = entryKeyOf dk.stored j))
          ⟨entryKeyOf dk.stored j, dk, dk.stored, j⟩ (selfEntries (j + 1) ds)
          (by simp)]
    have herase : eraseEntry st.entries (entryKeyOf dk.stored j)
        = selfEntries (j + 1) ds := by
      rw [hent, selfEntries, eraseEntry, List.filter_cons]
      rw [show (decide ((⟨entryKeyOf dk.stored j, dk, dk.stored, j⟩ : CEntry).ekey
          ≠ entryKeyOf dk.stored j)) = false from by simp]
      simp only [Bool.false_eq_true, if_false]
      apply List.filter_eq_self.mpr
      intro e he
      rw [decide_eq_true_eq]
      intro heq
      have hmem : e.ekey ∈ (selfEntries (j + 1) ds).map CEntry.ekey :=
        List.mem_map.mpr ⟨e, he, rfl⟩
      rw [heq] at hmem
      rw [selfEntries, List.map_cons] at hnodup
      exact (List.nodup_cons.mp hnodup).1 hmem
    have hnodup' : ((selfEntries (j + 1) ds).map CEntry.ekey).Nodup := by
      rw [selfEntries, List.map_cons] at hnodup
      exact (List.nodup_cons.mp hnodup).2
    have hnodes' : ∀ dk' ∈ ds, lookupNode (setNode st.nodes dk.nid dk) dk'.nid = some dk' := by
      intro dk' hdk'
      rw [lookupNode_setNode st.nodes dk dk.nid rfl (hnodes dk (List.mem_cons_self _ _))]
      exact hnodes dk' (List.mem_cons_of_mem _ hdk')
    rw [List.map_cons, reconChildLoop]
    simp only [hfind, hrec, if_pos rfl, if_neg hnm, orderReplace_self, List.append_nil,
      herase]
    obtain ⟨ho, hor, hen, hf, hl⟩ := ih (j + 1)
      { lastIndex := j
        entries := selfEntries (j + 1) ds
        nodes := setNode st.nodes dk.nid dk
        order := st.order
        ops := st.ops
        decs := st.decs ++ [CDec.patched j (decide (j < st.lastIndex))]
        fresh := st.fresh }
      origIds origLen (fun dk' h f' => hIH dk' (List.mem_cons_of_mem _ h) f')
      rfl hnodup' (Nat.le_succ j) hnodes'
    refine ⟨ho, hor, hen, hf, fun x => (hl x).trans ?_⟩
    exact lookupNode_setNode st.nodes dk dk.nid rfl (hnodes dk (List.mem_cons_self _ _)) x

theorem removeLeftover_no_entries (st : RCState) (h : st.entries = []) :
    (removeLeftover st).ops = st.ops ∧ (removeLeftover st).order = st.order ∧
    (removeLeftover st).nodes = st.nodes ∧ (removeLeftover st).fresh = st.fresh := by
  rw [removeLeftover, h]
  refine ⟨by simp, ?_, ?_, rfl⟩
  · show st.order.filter _ = st.order
    apply List.filter_eq_self.mpr
    intro x _
    simp
  · show st.nodes.filter _ = st.nodes
    apply List.filter_eq_self.mpr
    intro x _
    simp

theorem finalKids_eq_self (ns : List (Nat × DNode)) :
    ∀ (kids : List DNode), (∀ dk ∈ kids, lookupNode ns dk.nid = some dk) →
      (kids.map DNode.nid).filterMap (fun id => lookupNode ns id) = kids := by
  intro kids
  induction kids with
  | nil => intro _; rfl
  | cons k ks ih =>
    intro h
    rw [List.map_cons, List.filterMap_cons_some (h k (List.mem_cons_self _ _))]
    rw [ih fun dk hdk => h dk (List.mem_cons_of_mem _ hdk)]

/-- Reconciling a live node against the very vnode it displays is a no-op:
no mutation call is issued, the node (its whole subtree) is returned
unchanged, and no identity is consumed. -/
theorem reconcile_self_aux : ∀ (n : Nat) (v : VNode) (d : DNode) (f : Nat),
    sizeOf v ≤ n → d.stored = v → consistB d = true → idsOkB d = true →
    wfB v = true → reconcile d v f = (d, [], f) := by
  intro n
  induction n with
  | zero =>
    intro v d f hsz
    exfalso
    have : 0 < sizeOf v := by
      cases v <;> simp_arith
    omega
  | succ n ihn =>
    intro v d f hsz hst hcons hids hwf
    cases v with
    | text s =>
      cases d with
      | dtext id val st =>
        rw [DNode.stored] at hst
        subst hst
        rw [consistB] at hcons
        have hval : s = val := by
          have h := of_decide_eq_true hcons
          injection h
        subst hval
        rw [reconcile, if_neg (by simp)]
      | delem id tag st kids =>
        rw [DNode.stored] at hst
        subst hst
        rw [consistB] at hcons
        cases hcons
    | elem tag key props cs =>
      cases d with
      | dtext id val st =>
        rw [DNode.stored] at hst
        subst hst
        rw [consistB] at hcons
        have h := of_decide_eq_true hcons
        cases h
      | delem id dtag st kids =>
        rw [DNode.stored] at hst
        subst hst
        rw [consistB] at hcons
        rw [Bool.and_eq_true, Bool.and_eq_true] at hcons
        obtain ⟨⟨htag, hkidsc⟩, hclist⟩ := hcons
        have hkids : kids.map DNode.stored = cs := of_decide_eq_true hkidsc
        subst hkids
        rw [idsOkB, Bool.and_eq_true] at hids
        obtain ⟨hidn, hidl⟩ := hids
        rw [wfB, Bool.and_eq_true, Bool.and_eq_true] at hwf
        obtain ⟨⟨hwp, hwk⟩, hwl⟩ := hwf
        have hIH : ∀ dk ∈ kids, ∀ f', reconcile dk dk.stored f' = (dk, [], f') := by
          intro dk hdk f'
          have hmemc : dk.stored ∈ kids.map DNode.stored :=
            List.mem_map.mpr ⟨dk, hdk, rfl⟩
          have hszc : sizeOf dk.stored ≤ n := by
            have h1 : sizeOf dk.stored < sizeOf (kids.map DNode.stored) :=
              List.sizeOf_lt_of_mem hmemc
            have h2 : sizeOf (kids.map DNode.stored)
                < sizeOf (VNode.elem tag key props (kids.map DNode.stored)) := by
              simp_arith
            omega
          exact ihn dk.stored dk f' hszc rfl
            (consistList_mem kids hclist dk hdk)
            (idsOkList_mem kids hidl dk hdk)
            (wfList_mem _ hwl dk.stored hmemc)
        have hsen : ((selfEntries 0 kids).map CEntry.ekey).Nodup :=
          selfEntries_ekeys_nodup kids 0 ((nodupB_iff _).mp hwk)
        have hnodes0 : ∀ dk ∈ kids,
            lookupNode (kids.map fun k => (k.nid, k)) dk.nid = some dk :=
          lookupNode_init kids ((nodupB_iff _).mp hidn)
        have hloop := reconChildLoop_self kids 0
          { lastIndex := 0
            entries := buildEntries kids (VNode.elem tag key props
              (kids.map DNode.stored)).childrenOf
            nodes := kids.map fun dk => (dk.nid, dk)
            order := kids.map DNode.nid
            ops := []
            decs := []
            fresh := f }
          (kids.map DNode.nid) kids.length hIH
          (by
            show buildEntries kids (kids.map DNode.stored) = selfEntries 0 kids
            exact buildEntries_self kids hsen)
          hsen (Nat.le_refl 0) hnodes0
        obtain ⟨hlo, hlor, hlen, hlf, hll⟩ := hloop
        rw [reconcile, if_neg (by simp [DNode.stored, VNode.typeOf, VNode.keyOf])]
        have hrl := removeLeftover_no_entries _ hlen
        obtain ⟨hrlo, hrlor, hrln, hrlf⟩ := hrl
        have hfk : (removeLeftover (reconChildLoop (kids.map DNode.nid) kids.length 0
            { lastIndex := 0
              entries := buildEntries kids (VNode.elem tag key props
                (kids.map DNode.stored)).childrenOf
              nodes := kids.map fun dk => (dk.nid, dk)
              order := kids.map DNode.nid
              ops := []
              decs := []
              fresh := f }
            (kids.map DNode.stored))).finalKids = kids := by
          rw [RCState.finalKids, hrlor, hlor, hrln]
          show (kids.map DNode.nid).filterMap _ = kids
          apply finalKids_eq_self
          intro dk hdk
          rw [hll dk.nid]
          exact hnodes0 dk hdk
        have hpo : updatePropOps (VNode.elem tag key props
            (kids.map DNode.stored)).propsOf props = [] :=
          updatePropOps_self props ((nodupB_iff _).mp hwp)
        simp only [hpo, hfk, hrlo, hlo, hrlf, hlf, List.nil_append]

/-- Reconciling an unchanged, consistent, well-formed live subtree is the
identity with an empty mutation trace. -/
theorem reconcile_self (d : DNode) (f : Nat)
    (hcons : consistB d = true) (hids : idsOkB d = true)
    (hwf : wfB d.stored = true) :
    reconcile d d.stored f = (d, [], f) :=
  reconcile_self_aux (sizeOf d.stored) d.stored d f (Nat.le_refl _) rfl hcons hids hwf

/-- Witness for C5 at a concrete pass with an unmatched existing entry. -/
theorem keyed_children_reconciliation_witness :
    Op.unmountCascade 0 ∈
      (reconcileChildren (renderList [VNode.elem "li" (some "a") [] []] 0).1
        [VNode.elem "li" (some "a") [] []] [] 50).ops ∧
    Op.removeChildOp 0 ∈
      (reconcileChildren (renderList [VNode.elem "li" (some "a") [] []] 0).1
        [VNode.elem "li" (some "a") [] []] [] 50).ops :=
  keyed_children_reconciliation.2.1
    (renderList [VNode.elem "li" (some "a") [] []] 0).1
    [VNode.elem "li" (some "a") [] []] [] 50
    ⟨Sum.inl "a", (renderVNode (VNode.elem "li" (some "a") [] []) 0).1,
      VNode.elem "li" (some "a") [] [], 0⟩ (by decide)

/-! ## The public render API on a repeated identical tree (claim C4) -/

theorem renderVNode_stored (v : VNode) (f : Nat) : (renderVNode v f).1.stored = v := by
  cases v with
  | text s => rfl
  | elem t k p cs =>
    simp only [renderVNode]
    rcases renderList cs (f + 1) with ⟨ds, f2⟩
    rfl

theorem renderAPI_fields (v : VNode) (c : RContainer) (f : Nat) :
    (renderAPI v c f).1.rootNode = some (renderVNode v f).1 ∧
    (renderAPI v c f).2.1 = [Op.clearContainer, Op.createNode (renderVNode v f).1.nid,
      Op.appendChild (renderVNode v f).1.nid] ∧
    (renderAPI v c f).2.2 = (renderVNode v f).2 := by
  rcases hr : renderVNode v f with ⟨d, f2⟩
  simp [renderAPI, hr]

/-- Counterexample to claim C4: render(T, c) followed by render(T, c) with
the identical tree is NOT mutation-free on the second call — render always
goes through mount, which clears the container's content and rebuilds the
subtree from scratch (no diff against the previous root happens on this
path), so the second call issues clear/create/append mutations. -/
theorem render_repeat_not_noop_counterexample :
    (renderAPI (VNode.text "hi")
      (renderAPI (VNode.text "hi") ⟨none⟩ 0).1
      ((renderAPI (VNode.text "hi") ⟨none⟩ 0).2.2)).2.1 ≠ [] := by decide

/-- Claim C4 (amended).  A second render of the identical tree into the same
container is not a no-op on the render target: it again clears the
container and rebuilds (clearContainer, createNode, appendChild), since
render → mount never diffs against the stored root.  What does hold is
idempotence of the result — both calls store a root displaying exactly the
given tree — and the no-op property the claim ascribes to this path is real
but belongs to the reconciler: diffing the first call's live root against
the identical tree yields the root unchanged with an empty mutation
trace. -/
theorem render_repeat_clears_and_rebuilds (v : VNode) (c : RContainer) (fresh : Nat)
    (hcons : consistB (renderVNode v fresh).1 = true)
    (hids : idsOkB (renderVNode v fresh).1 = true)
    (hwf : wfB v = true) :
    (renderAPI v (renderAPI v c fresh).1 ((renderAPI v c fresh).2.2)).2.1 =
      [Op.clearContainer,
        Op.createNode (renderVNode v ((renderAPI v c fresh).2.2)).1.nid,
        Op.appendChild (renderVNode v ((renderAPI v c fresh).2.2)).1.nid] ∧
    (∀ d1, (renderAPI v c fresh).1.rootNode = some d1 → d1.stored = v) ∧
    (∀ d2, (renderAPI v (renderAPI v c fresh).1
        ((renderAPI v c fresh).2.2)).1.rootNode = some d2 → d2.stored = v) ∧
    reconcile (renderVNode v fresh).1 v ((renderAPI v c fresh).2.2) =
      ((renderVNode v fresh).1, [], (renderAPI v c fresh).2.2) := by
  refine ⟨(renderAPI_fields v (renderAPI v c fresh).1 ((renderAPI v c fresh).2.2)).2.1,
    ?_, ?_, ?_⟩
  · intro d1 h
    rw [(renderAPI_fields v c fresh).1] at h
    injection h with h1
    rw [← h1]
    exact renderVNode_stored v fresh
  · intro d2 h
    rw [(renderAPI_fields v (renderAPI v c fresh).1
      ((renderAPI v c fresh).2.2)).1] at h
    injection h with h1
    rw [← h1]
    exact renderVNode_stored v ((renderAPI v c fresh).2.2)
  · have h := reconcile_self (renderVNode v fresh).1 ((renderAPI v c fresh).2.2)
      hcons hids (by rw [renderVNode_stored]; exact hwf)
    rw [renderVNode_stored] at h
    exact h

/-- Witness for the amended C4 at a concrete one-element tree. -/
theorem render_repeat_clears_and_rebuilds_witness :
    reconcile (renderVNode (VNode.elem "div" none [] [VNode.text "hi"]) 0).1
      (VNode.elem "div" none [] [VNode.text "hi"])
      ((renderAPI (VNode.elem "div" none [] [VNode.text "hi"]) ⟨none⟩ 0).2.2) =
      ((renderVNode (VNode.elem "div" none [] [VNode.text "hi"]) 0).1, [],
        (renderAPI (VNode.elem "div" none [] [VNode.text "hi"]) ⟨none⟩ 0).2.2) :=
  (render_repeat_clears_and_rebuilds (VNode.elem "div" none [] [VNode.text "hi"])
    ⟨none⟩ 0 (by decide) (by decide) (by decide)).2.2.2

/-! ## The shouldComponentUpdate veto path (claim C1) -/

/-- Claim C1.  A mounted class component that overrides
shouldComponentUpdate and holds a non-empty pendingState, committed by the
scheduler while the gate rejects the merged next state: the pending state
is discarded (state left unchanged, pendingState cleared), every queued
setState/forceUpdate callback runs in FIFO order and the callback queue is
cleared, exactly one commit happens, and the live render-target subtree is
left unchanged — the update pass issues no mutation call and returns the
component's dom node as-is (the source does re-invoke render and reconcile,
ignoring _commitState's boolean, but against the unchanged state the
identical output diffs to nothing; hence fresh node ids are not consumed
either).  The consistency hypotheses say the dom node is the live result of
the component's own render from its current state. -/
theorem gate_veto_skips_rerender (c : Comp) (dn : DNode) (p : SMap) (f : Nat)
    (hm : c.isMounted = true)
    (hov : c.overridesSCU = true)
    (hp : c.pendingState = some p)
    (hg : c.gate (mergeStates c.state p) = false)
    (hdn : dn.stored = c.renderFn c.state)
    (hcons : consistB dn = true)
    (hids : idsOkB dn = true)
    (hwf : wfB dn.stored = true) :
    (updateComponent c dn f).comp.state = c.state ∧
    (updateComponent c dn f).comp.pendingState = none ∧
    (updateComponent c dn f).comp.pendingCallbacks = [] ∧
    (updateComponent c dn f).ranCallbacks = c.pendingCallbacks ∧
    (updateComponent c dn f).commitCalls = 1 ∧
    (updateComponent c dn f).dom = dn ∧
    (updateComponent c dn f).ops = [] ∧
    (updateComponent c dn f).fresh = f := by
  have hveto := commitState_veto { c with renderInProgress := true } p hp hm hov hg
  have hrec : reconcile dn (c.renderFn c.state) f = (dn, [], f) := by
    have h := reconcile_self dn f hcons hids hwf
    rw [hdn] at h
    exact h
  rw [updateComponent_mounted c dn f hm, hveto]
  simp [hrec]

/-- Witness for C1: a mounted instance whose gate always rejects, with one
pending callback and a pending partial, over the live node of its own
render. -/
theorem gate_veto_skips_rerender_witness :
    (updateComponent
      { state := fun _ => none
        pendingState := some (fun k => if k = "n" then some 1 else none)
        pendingCallbacks := [5]
        isMounted := true, renderInProgress := false, overridesSCU := true
        gate := fun _ => false
        renderFn := fun _ => VNode.elem "div" none [] [VNode.text "hi"] }
      (renderVNode (VNode.elem "div" none [] [VNode.text "hi"]) 0).1 7).ranCallbacks
      = [5] ∧
    (updateComponent
      { state := fun _ => none
        pendingState := some (fun k => if k = "n" then some 1 else none)
        pendingCallbacks := [5]
        isMounted := true, renderInProgress := false, overridesSCU := true
        gate := fun _ => false
        renderFn := fun _ => VNode.elem "div" none [] [VNode.text "hi"] }
      (renderVNode (VNode.elem "div" none [] [VNode.text "hi"]) 0).1 7).ops = [] :=
  ⟨(gate_veto_skips_rerender _ _ (fun k => if k = "n" then some 1 else none) 7
      rfl rfl rfl rfl rfl (by decide) (by decide) (by decide)).2.2.2.1,
    (gate_veto_skips_rerender _ _ (fun k => if k = "n" then some 1 else none) 7
      rfl rfl rfl rfl rfl (by decide) (by decide) (by decide)).2.2.2.2.2.2.1⟩

end LitteDOM
